import Mathlib

/-!
Verification of the smart-city decision pipeline (backend `/ingest` and
`/control` routes, agent graphs) against its natural-language specification.

The TypeScript sources are shallowly embedded: JavaScript numbers are
rationals (`ℚ`), with non-finite results (`NaN`, `±Infinity`) tracked
explicitly where the code tests `Number.isFinite`; the in-memory store
(`mem` in `db.ts`) is a record of lists; JS `Map`s are association lists
with insertion-order update-in-place semantics; route handlers are pure
functions from the store (plus the outcomes of external calls, passed as
arguments) to the new store and the response.
-/

namespace SmartCity

/-- JS `String.prototype.toLowerCase`, as a character-wise map (the strings
this system lowercases are ASCII). -/
def lowerString (s : String) : String :=
  ⟨s.data.map Char.toLower⟩

/-- JS `String.prototype.trim`: strip leading and trailing whitespace. -/
def trimString (s : String) : String :=
  ⟨((s.data.dropWhile Char.isWhitespace).reverse.dropWhile Char.isWhitespace).reverse⟩

/-- Value of a JS object field as seen by `Number(x)` and by `??`:
`jnull` is `null` (`Number(null) = 0`, skipped by `??`), `jnum q` converts
to the finite number `q`, `jbad` is any other present, non-null value whose
`Number(...)` conversion is not finite (strings, `NaN`, objects, ...). -/
inductive JsLeaf where
  | jnull
  | jnum (q : ℚ)
  | jbad
deriving DecidableEq, Repr

/-- A raw JS value handed to `deriveMetric` (`ingest.ts`): a finite number,
a non-finite number, a non-object primitive (string/bool/null/undefined),
or an object modelled by its field list. -/
inductive RawVal where
  | rnum (q : ℚ)
  | rnonfinite
  | rprim
  | robj (fields : List (String × JsLeaf))
deriving DecidableEq, Repr

/-- Field access `data.name` on an object: `none` when the field is absent. -/
def getField (fields : List (String × JsLeaf)) (name : String) : Option JsLeaf :=
  (fields.find? (fun p => p.1 == name)).map (fun p => p.2)

/-- `Number(x)` of a present field value, as a finite rational when it is one. -/
def leafNum : JsLeaf → Option ℚ
  | .jnull => some 0
  | .jnum q => some q
  | .jbad => none

/-- `Number(data.name)` when that conversion is finite (absent fields give
`Number(undefined) = NaN`, hence `none`). -/
def fieldNum (fields : List (String × JsLeaf)) (name : String) : Option ℚ :=
  (getField fields name).bind leafNum

/-- The `[data.a, data.b, ...].map(Number).filter(Number.isFinite)` pattern. -/
def numCandidates (fields : List (String × JsLeaf)) (names : List String) : List ℚ :=
  names.filterMap (fieldNum fields)

/-- A nullish-coalescing chain `data.a ?? data.b ?? data.c` whose operands
are all field accesses: the first present, non-null field wins, but the LAST
operand is returned as-is — in JS the chain evaluates to its final operand
even when that is `null`, and `Number(null) = 0` is finite (`leafNum .jnull
= some 0` accounts for this). `none` means the chain is `undefined`
(`Number(undefined) = NaN`). -/
def nullishChain (fields : List (String × JsLeaf)) : List String → Option JsLeaf
  | [] => none
  | [n] => getField fields n
  | n :: rest =>
    match getField fields n with
    | some .jnull => nullishChain fields rest
    | some leaf => some leaf
    | none => nullishChain fields rest

/-- A PREFIX of a nullish-coalescing chain that continues with a further
non-field operand (as in `value?.etaMs ?? value?.eta_ms ?? 30000` in
`railGraph.ts`): the first present, non-null field among the names, `none`
when every listed field is nullish so that the chain falls through to the
trailing operand. -/
def nullishLookup (fields : List (String × JsLeaf)) : List String → Option JsLeaf
  | [] => none
  | n :: rest =>
    match getField fields n with
    | some .jnull => nullishLookup fields rest
    | some leaf => some leaf
    | none => nullishLookup fields rest

/-- `Math.max(...)` over a candidate list; `none` when the list is empty. -/
def listMax : List ℚ → Option ℚ
  | [] => none
  | q :: qs => some (qs.foldl max q)

/-- Field names probed by the queue/congestion tier of `deriveMetric`, in
source order (`ingest.ts` lines 19-31). -/
def trafficCandidateNames : List String :=
  ["congestion", "congestion_index", "congestionIndex", "avg_queue_len_NS",
   "avg_queue_len_EW", "queue_ns", "queue_ew", "queueNS", "queueEW",
   "avg_queue_len", "queue"]

/-- Field names of the progress tier (`data.progress ?? data.flow ?? ...`). -/
def progressNames : List String := ["progress", "flow", "utilisation", "utilization"]

/-- Field names of the wait tier (`ingest.ts` lines 46-51). -/
def trafficWaitNames : List String := ["wait_time_NS", "wait_time_EW", "wait_ns", "wait_ew"]

/-- Field names of the rail ETA chain (`data.etaMs ?? data.eta_ms ?? data.eta`). -/
def railEtaNames : List String := ["etaMs", "eta_ms", "eta"]

/-- Embedding of `deriveMetric` (`ingest.ts` lines 8-68). -/
def deriveMetric (kind : String) (raw : RawVal) : Option ℚ :=
  match raw with
  | .rnum q => some q
  | .rnonfinite => none
  | .rprim => none
  | .robj fields =>
    if kind == "traffic" then
      match listMax (numCandidates fields trafficCandidateNames) with
      | some m => some m
      | none =>
        match (nullishChain fields progressNames).bind leafNum with
        | some p => some (if p ≤ 1 then p * 100 else p)
        | none =>
          match listMax (numCandidates fields trafficWaitNames) with
          | some m => some m
          | none => none
    else if kind == "rail" then
      (nullishChain fields railEtaNames).bind leafNum
    else none

/-- Metric of a traffic object as the CLAIM words it: the maximum over all
congestion-like, queue-like and wait-like numeric fields found in the value,
with a 0-1 progress/utilization fraction normalized to a 0-100 scale. Stated
for comparison with `deriveMetric`, which the source defines tier by tier. -/
def claimTrafficMetricMax (fields : List (String × JsLeaf)) : Option ℚ :=
  let progressNormalized :=
    match (nullishChain fields progressNames).bind leafNum with
    | some p => [if p ≤ (1 : ℚ) then p * 100 else p]
    | none => []
  listMax (numCandidates fields trafficCandidateNames ++
    numCandidates fields trafficWaitNames ++ progressNormalized)

/-- A stored measurement (`db.ts` interface `Measurement`). -/
structure Measurement where
  kind : String
  location : String
  value : RawVal
  metric : Option ℚ
  ts : ℚ
deriving DecidableEq, Repr

/-- Lookup in a JS `Map` modelled as an association list. -/
def mapGet {β : Type} : List (String × β) → String → Option β
  | [], _ => none
  | p :: m, k => if p.1 == k then some p.2 else mapGet m k

/-- JS `Map.has`. -/
def mapContains {β : Type} (m : List (String × β)) (k : String) : Bool :=
  m.any (fun p => p.1 == k)

/-- JS `Map.set`: replaces in place when the key exists, else appends
(preserving iteration order semantics of JS `Map`). -/
def mapSet {β : Type} (m : List (String × β)) (k : String) (v : β) : List (String × β) :=
  if mapContains m k then m.map (fun p => if p.1 == k then (k, v) else p)
  else m ++ [(k, v)]

/-- The backend's in-memory store (`db.ts` `mem`). The `decisions` list is
modelled separately where the `/control` routes are embedded. -/
structure MemoryStore where
  measurements : List Measurement
  recent : List (String × List Measurement)
  latestByLocation : List (String × List (String × Measurement))
deriving Repr

def MemoryStore.empty : MemoryStore := ⟨[], [], []⟩

/-- Embedding of `upsertRecent` (`ingest.ts` lines 70-81) with `keep` passed
explicitly (the source default is 200). -/
def upsertRecent (store : MemoryStore) (kind : String) (item : Measurement)
    (keep : ℕ) : MemoryStore :=
  let bucket := (mapGet store.recent kind).getD []
  let bucket := bucket ++ [item]
  let bucket := if keep < bucket.length then bucket.drop (bucket.length - keep) else bucket
  let perLocation := (mapGet store.latestByLocation kind).getD []
  let perLocation := mapSet perLocation item.location item
  { store with
    recent := mapSet store.recent kind bucket
    latestByLocation := mapSet store.latestByLocation kind perLocation }

/-- Response and store after `POST /ingest` (`ingest.ts` lines 100-115).
`value = none` models an `undefined` body value (rejected); `ts` is the
optional numeric body timestamp and `now` stands for `Date.now()`. -/
structure IngestResult where
  status : ℕ
  stored : Option Measurement
  store : MemoryStore
deriving Repr

/-- Embedding of the `POST /ingest` handler. -/
def postIngest (store : MemoryStore) (kind location : String) (value : Option RawVal)
    (ts : Option ℚ) (now : ℚ) : IngestResult :=
  if kind = "" ∨ location = "" ∨ value = none then
    { status := 400, stored := none, store := store }
  else
    let v := value.getD .rprim
    let timestamp := ts.getD now
    let metric := deriveMetric kind v
    let item : Measurement :=
      { kind := kind, location := location, value := v, metric := metric, ts := timestamp }
    let store := { store with measurements := store.measurements ++ [item] }
    let store := upsertRecent store kind item 200
    { status := 200, stored := some item, store := store }

/-- Response and store after `GET /ingest/next` (`ingest.ts` lines 118-126). -/
structure NextResult where
  item : Option Measurement
  store : MemoryStore
deriving Repr

/-- Embedding of the `GET /ingest/next` handler: `findIndex` on the pending
list followed by `splice(idx, 1)`. -/
def getNext (store : MemoryStore) (kind : String) : NextResult :=
  match store.measurements.findIdx? (fun m => m.kind == kind) with
  | none => { item := none, store := store }
  | some idx =>
    { item := store.measurements.get? idx
      store := { store with measurements := store.measurements.eraseIdx idx } }

/-- One entry of the snapshot payload (`toSnapshotEntry`, `ingest.ts` 83-97). -/
structure SnapshotEntry where
  location : String
  value : ℚ
  metric : Option ℚ
  details : RawVal
  ts : ℚ
deriving DecidableEq, Repr

/-- Embedding of `toSnapshotEntry`: a stored finite metric is kept, else the
metric is re-derived from the raw value; `value` falls back to 0. -/
def toSnapshotEntry (kind : String) (entry : Measurement) : SnapshotEntry :=
  let metric :=
    match entry.metric with
    | some m => some m
    | none => deriveMetric kind entry.value
  { location := entry.location, value := metric.getD 0, metric := metric
    details := entry.value, ts := entry.ts }

/-- Payload of `GET /ingest/snapshot`. -/
structure SnapshotPayload where
  kind : String
  latest : List SnapshotEntry
  history : List SnapshotEntry
deriving DecidableEq, Repr

/-- Embedding of the `GET /ingest/snapshot` handler (`ingest.ts` 129-146).
`limitRaw = none` models an absent or non-finite `limit` query parameter
(non-integral finite limits do not occur in the claims). The handler performs
no store mutation, so the store component of the result is the input store. -/
def getSnapshot (store : MemoryStore) (kind : String) (limitRaw : Option ℤ) :
    SnapshotPayload × MemoryStore :=
  let limit : ℤ := match limitRaw with
    | some l => max 1 (min 500 l)
    | none => 50
  let historyBucket := (mapGet store.recent kind).getD []
  let history :=
    (historyBucket.drop (historyBucket.length - limit.toNat)).map (toSnapshotEntry kind)
  let latestMap := (mapGet store.latestByLocation kind).getD []
  let latest := (latestMap.map (fun p => p.2)).map (toSnapshotEntry kind)
  ({ kind := kind, latest := latest, history := history }, store)

/-- One ingestion request: the body of a `POST /ingest` call together with
the `Date.now()` value observed while handling it. -/
structure IngestReq where
  kind : String
  location : String
  value : RawVal
  ts : Option ℚ
  now : ℚ
deriving Repr

/-- The measurement a valid `POST /ingest` request stores. -/
def mkItem (r : IngestReq) : Measurement :=
  { kind := r.kind, location := r.location, value := r.value
    metric := deriveMetric r.kind r.value, ts := r.ts.getD r.now }

/-- Folding a sequence of ingestion requests into the store. -/
def applyIngests (store : MemoryStore) : List IngestReq → MemoryStore
  | [] => store
  | r :: rs => applyIngests (postIngest store r.kind r.location (some r.value) r.ts r.now).store rs

/-- Repeatedly dequeue measurements of one kind (the pipeline's consumer
loop), collecting the returned items; `fuel` bounds the number of calls. -/
def drain (store : MemoryStore) (kind : String) : ℕ → List Measurement
  | 0 => []
  | fuel + 1 =>
    match getNext store kind with
    | { item := none, store := _ } => []
    | { item := some m, store := store' } => m :: drain store' kind fuel

/-- Agent kinds (`db.ts` `AgentKind`). -/
inductive Agent where
  | traffic
  | rail
deriving DecidableEq, Repr

def Agent.str : Agent → String
  | .traffic => "traffic"
  | .rail => "rail"

/-- Traffic-light phase (`trafficController.ts` `TrafficPlanSchema`). -/
inductive Phase where
  | red
  | amber
  | green
deriving DecidableEq, Repr

/-- A traffic plan: phases for the two approaches plus a green duration. -/
structure TrafficPlan where
  ns : Phase
  eo : Phase
  durationSec : ℚ
deriving DecidableEq, Repr

/-- Barrier states (`railController.ts` `BarrierSchema`). -/
inductive BarrierState where
  | OPEN
  | CLOSING
  | CLOSED
  | OPENING
deriving DecidableEq, Repr

/-- A rail command. -/
structure RailCommand where
  state : BarrierState
deriving DecidableEq, Repr

/-- Result of a successful consensus submission (`hedera.ts`
`ConsensusLogResult`). -/
structure ConsensusLogResult where
  topicId : String
  consensusTimestamp : Option String
  sequenceNumber : Option String
deriving DecidableEq, Repr

/-- A decision-log entry (`db.ts` interface `DecisionLog`). Opaque JSON
payloads (`observation`, `decision`, metadata, reasoning) are `RawVal`s. -/
structure DecisionLog where
  agent : Agent
  location : Option String
  source : Option String
  observation : RawVal
  decision : RawVal
  status : String
  ts : ℚ
  confidence : Option ℚ
  actionIndex : Option ℤ
  policyMetadata : Option RawVal
  reasoning : Option RawVal
  consensusTimestamp : Option String
  topicId : Option String
  sequenceNumber : Option String
deriving DecidableEq, Repr

/-- Retention bound of the decision log (`control.ts` line 15). -/
def DECISION_HISTORY_LIMIT : ℕ := 1000

/-- Embedding of `recordDecision` (`control.ts` lines 54-59): append, then
`splice(0, length - limit)` when over the bound. -/
def recordDecision (log : List DecisionLog) (entry : DecisionLog) : List DecisionLog :=
  let log := log ++ [entry]
  if DECISION_HISTORY_LIMIT < log.length then
    log.drop (log.length - DECISION_HISTORY_LIMIT)
  else log

/-- Grouping key of `GET /control/decisions/latest`:
`` `${entry.agent}::${entry.location ?? '__unknown__'}`.toLowerCase() ``. -/
def latestKey (e : DecisionLog) : String :=
  lowerString (e.agent.str ++ "::" ++ (e.location.getD "__unknown__"))

/-- Whether an entry passes the optional agent filter of the latest route. -/
def okFilter (filt : Option Agent) (e : DecisionLog) : Bool :=
  match filt with
  | some a => e.agent == a
  | none => true

/-- One step of the `latestByKey` map-building loop (`control.ts` 218-226). -/
def latestStep (filt : Option Agent) (m : List (String × DecisionLog)) (e : DecisionLog) :
    List (String × DecisionLog) :=
  if okFilter filt e then
    let k := latestKey e
    match mapGet m k with
    | none => mapSet m k e
    | some current => if current.ts < e.ts then mapSet m k e else m
  else m

/-- The sorted latest-per-key items before truncation: map values in
insertion order, stably sorted by the comparator `(a, b) => b.ts - a.ts`. -/
def latestItems (ds : List DecisionLog) (filt : Option Agent) : List DecisionLog :=
  ((ds.foldl (latestStep filt) []).map (fun p => p.2)).mergeSort
    (fun a b => decide (b.ts ≤ a.ts))

/-- Parsing of the `limit` query parameter (`control.ts` lines 213-214 and
the truthiness test on line 229): `none` models an absent or non-numeric
parameter, and a parsed limit of `0` is falsy, hence no truncation. -/
def parseLimit (limitRaw : Option ℚ) : Option ℕ :=
  match limitRaw with
  | none => none
  | some q =>
    if 0 < q then
      let f : ℤ := min 100 ⌊q⌋
      if f = 0 then none else some f.toNat
    else none

/-- Embedding of the `GET /control/decisions/latest` handler, returning the
selected log entries (the route then projects each entry to a JSON payload
field by field, which drops no information the claims mention). -/
def latestRoute (ds : List DecisionLog) (filt : Option Agent) (limitRaw : Option ℚ) :
    List DecisionLog :=
  match parseLimit limitRaw with
  | some n => (latestItems ds filt).take n
  | none => latestItems ds filt

/-- Substring test, modelling `String.prototype.includes`. -/
def includesSubstr (s pat : String) : Bool :=
  decide (pat.toList <:+: s.toList)

/-- Status chosen by the infer routes' catch blocks:
`err.message.toLowerCase().includes('required') ? 400 : 502`. -/
def errStatus (msg : String) : ℕ :=
  if includesSubstr (lowerString msg) "required" then 400 else 502

/-- Embedding of `coerceString` (`control.ts` 17-21); also models
`coerceLocation` after its object unwrapping, with `none` standing for a
non-string (or unresolvable) input. -/
def coerceString (value : Option String) : Option String :=
  match value with
  | none => none
  | some s => let t := trimString s; if t = "" then none else some t

/-- The in-place consensus-field update applied to a decision entry when a
submission result arrives (`control.ts` 124-128, 185-189, 304-309). -/
def applyConsensus (e : DecisionLog) (r : ConsensusLogResult) : DecisionLog :=
  { e with
    topicId := some r.topicId
    sequenceNumber := r.sequenceNumber
    consensusTimestamp := r.consensusTimestamp }

/-- Abstract behaviour of one `submitDecisionToConsensus` call: the promise
settles at abstract time `settleAt` with `outcome` — `.ok none` when
anchoring is disabled (missing credentials), `.ok (some r)` on a confirmed
submission, `.error msg` when the submission throws or rejects. -/
structure ConsensusBehavior where
  settleAt : ℕ
  outcome : Except String (Option ConsensusLogResult)

/-- Value the `/decisions/log` route's `consensusWithUpdate` promise resolves
to: the attached `.catch` turns any rejection into `null`. -/
def consensusSettled (beh : ConsensusBehavior) : Option ConsensusLogResult :=
  match beh.outcome with
  | .ok r => r
  | .error _ => none

def parseAgent (s : String) : Option Agent :=
  if s = "traffic" then some .traffic else if s = "rail" then some .rail else none

/-- Body of a `POST /control/decisions/log` request, with each field already
narrowed the way the handler's `typeof` tests narrow it (`none` = absent or
of the wrong type; `observation = some v` means `'observation' in payload`). -/
structure LogPayload where
  agent : Option String
  location : Option String
  source : Option String
  ts : Option ℚ
  status : Option String
  confidence : Option ℚ
  actionIndex : Option ℤ
  policyMetadata : Option RawVal
  observation : Option RawVal
  decision : RawVal
  reasoning : Option RawVal

/-- Result of the `/decisions/log` handler: HTTP status, the `consensus` and
`consensusPending` response fields, the decision log right after the
response is sent, and the log once the fire-and-forget submission has also
settled (the stored entry is mutated in place by the late `.then`). -/
structure LogRouteResult where
  status : ℕ
  consensus : Option ConsensusLogResult
  consensusPending : Bool
  log : List DecisionLog
  logFinal : List DecisionLog

/-- Embedding of the `POST /control/decisions/log` handler (`control.ts`
259-351). `waitMs` is the parsed `CONSENSUS_LOG_WAIT_MS` budget (default
1500) and `now` is `Date.now()`. The submission promise wins the race
against the timeout iff it settles strictly before the budget elapses;
with a `0` budget the handler reports pending without racing at all. -/
def decisionsLogRoute (log : List DecisionLog) (payload : LogPayload) (now : ℚ)
    (waitMs : ℕ) (beh : ConsensusBehavior) : LogRouteResult :=
  match parseAgent (lowerString (payload.agent.getD "")) with
  | none =>
    { status := 400, consensus := none, consensusPending := false
      log := log, logFinal := log }
  | some agent =>
    let entry : DecisionLog :=
      { agent := agent
        location := coerceString payload.location
        source := coerceString payload.source
        observation := payload.observation.getD .rprim
        decision := payload.decision
        status := payload.status.getD "APPLIED"
        ts := payload.ts.getD now
        confidence := payload.confidence
        actionIndex := payload.actionIndex
        policyMetadata := payload.policyMetadata
        reasoning := payload.reasoning
        consensusTimestamp := none, topicId := none, sequenceNumber := none }
    let settled := consensusSettled beh
    let consensus := if waitMs ≠ 0 ∧ beh.settleAt < waitMs then settled else none
    let pending := if waitMs = 0 then true else if beh.settleAt < waitMs then false else true
    let entrySync :=
      match consensus with
      | some r => applyConsensus entry r
      | none => entry
    let entryFinal :=
      match settled with
      | some r => applyConsensus entry r
      | none => entry
    { status := 200, consensus := consensus, consensusPending := pending
      log := recordDecision log entrySync
      logFinal := recordDecision log entryFinal }

/-- Typed traffic observation (`services/inference.ts`
`TrafficObservationPayload`). -/
structure TrafficObservationPayload where
  queue_ns : ℚ
  queue_ew : ℚ
  wait_ns : Option ℚ
  wait_ew : Option ℚ
  is_ns_green : Option ℚ
  progress : Option ℚ
deriving DecidableEq, Repr

/-- JSON shape of a traffic observation as stored in a decision entry. -/
def TrafficObservationPayload.toRaw (o : TrafficObservationPayload) : RawVal :=
  .robj ([("queue_ns", .jnum o.queue_ns), ("queue_ew", .jnum o.queue_ew)]
    ++ (match o.wait_ns with | some w => [("wait_ns", JsLeaf.jnum w)] | none => [])
    ++ (match o.wait_ew with | some w => [("wait_ew", JsLeaf.jnum w)] | none => [])
    ++ (match o.is_ns_green with | some g => [("is_ns_green", JsLeaf.jnum g)] | none => [])
    ++ (match o.progress with | some p => [("progress", JsLeaf.jnum p)] | none => []))

/-- Typed rail observation (`services/inference.ts` `RailObservationPayload`). -/
structure RailObservationPayload where
  eta_ms : ℚ
  barrier_closed : ℚ
deriving DecidableEq, Repr

def RailObservationPayload.toRaw (o : RailObservationPayload) : RawVal :=
  .robj [("eta_ms", .jnum o.eta_ms), ("barrier_closed", .jnum o.barrier_closed)]

/-- Body of an infer request after `rawPayload.observation ?? rawPayload`
resolution, with numeric fields narrowed by their `typeof` tests. -/
structure TrafficInferBody where
  queue_ns : Option ℚ
  queue_ew : Option ℚ
  wait_ns : Option ℚ
  wait_ew : Option ℚ
  is_ns_green : Option ℚ
  progress : Option ℚ
  location : Option String
  source : Option String

/-- Embedding of `parseTrafficObservation` (`control.ts` 61-74). -/
def parseTrafficObservation (body : TrafficInferBody) :
    Except String TrafficObservationPayload :=
  match body.queue_ns, body.queue_ew with
  | some qns, some qew =>
    .ok { queue_ns := qns, queue_ew := qew, wait_ns := body.wait_ns
          wait_ew := body.wait_ew, is_ns_green := body.is_ns_green
          progress := body.progress }
  | _, _ => .error "queue_ns and queue_ew numeric fields are required"

structure RailInferBody where
  eta_ms : Option ℚ
  barrier_closed : Option ℚ
  location : Option String
  source : Option String

/-- Embedding of `parseRailObservation` (`control.ts` 76-85): clamps the
barrier flag into [0, 1]. -/
def parseRailObservation (body : RailInferBody) :
    Except String RailObservationPayload :=
  match body.eta_ms, body.barrier_closed with
  | some eta, some b => .ok { eta_ms := eta, barrier_closed := max 0 (min 1 b) }
  | _, _ => .error "eta_ms and barrier_closed numeric fields are required"

/-- Response of the inference oracle for traffic (`services/inference.ts`
`TrafficInferenceResult`); `policy_metadata = none` models a falsy one. -/
structure TrafficInferenceResult where
  plan : RawVal
  action_index : ℤ
  confidence : ℚ
  policy_metadata : Option RawVal

/-- Response of the inference oracle for rail. -/
structure RailInferenceResult where
  command : RawVal
  action_index : ℤ
  confidence : ℚ
  policy_metadata : Option RawVal

/-- The `reasoning` record the infer routes build (`control.ts` 100-108,
161-169): `method` and `stage` are string-valued fields. -/
def inferReasoning (actionIndex : ℤ) (confidence : ℚ) (metadata : Option RawVal) : RawVal :=
  .robj ([("method", .jbad), ("stage", .jbad),
    ("selectedAction", .jnum (actionIndex : ℚ)), ("confidence", .jnum confidence)]
    ++ (match metadata with | some _ => [("policyMetadata", JsLeaf.jbad)] | none => []))

/-- Result of an infer route: HTTP status, the `consensus` response field,
and the decision log after the handler returns. -/
structure InferRouteResult where
  status : ℕ
  consensus : Option ConsensusLogResult
  log : List DecisionLog

/-- Embedding of the `POST /control/traffic/infer` handler (`control.ts`
87-147). `inference` is the outcome of `inferTraffic` and `consensus` the
outcome of `submitDecisionToConsensus`; both are awaited inside the `try`
block, and any rejection lands in the shared `catch`, which picks the
status from the error message and sends an error response. -/
def trafficInferRoute (log : List DecisionLog) (body : TrafficInferBody)
    (inference : Except String TrafficInferenceResult)
    (consensus : Except String (Option ConsensusLogResult)) (now : ℚ) : InferRouteResult :=
  match parseTrafficObservation body with
  | .error msg => { status := errStatus msg, consensus := none, log := log }
  | .ok observation =>
    match inference with
    | .error msg => { status := errStatus msg, consensus := none, log := log }
    | .ok inf =>
      let decision : DecisionLog :=
        { agent := .traffic
          location := coerceString body.location
          source := coerceString body.source
          observation := observation.toRaw
          decision := inf.plan
          status := "APPLIED"
          ts := now
          confidence := some inf.confidence
          actionIndex := some inf.action_index
          policyMetadata := inf.policy_metadata
          reasoning := some (inferReasoning inf.action_index inf.confidence inf.policy_metadata)
          consensusTimestamp := none, topicId := none, sequenceNumber := none }
      match consensus with
      | .error msg => { status := errStatus msg, consensus := none, log := log }
      | .ok copt =>
        let decision :=
          match copt with
          | some c => applyConsensus decision c
          | none => decision
        { status := 200, consensus := copt, log := recordDecision log decision }

/-- Embedding of the `POST /control/rail/infer` handler (`control.ts`
149-208), with the same try/catch structure as the traffic route. -/
def railInferRoute (log : List DecisionLog) (body : RailInferBody)
    (inference : Except String RailInferenceResult)
    (consensus : Except String (Option ConsensusLogResult)) (now : ℚ) : InferRouteResult :=
  match parseRailObservation body with
  | .error msg => { status := errStatus msg, consensus := none, log := log }
  | .ok observation =>
    match inference with
    | .error msg => { status := errStatus msg, consensus := none, log := log }
    | .ok inf =>
      let decision : DecisionLog :=
        { agent := .rail
          location := coerceString body.location
          source := coerceString body.source
          observation := observation.toRaw
          decision := inf.command
          status := "APPLIED"
          ts := now
          confidence := some inf.confidence
          actionIndex := some inf.action_index
          policyMetadata := inf.policy_metadata
          reasoning := some (inferReasoning inf.action_index inf.confidence inf.policy_metadata)
          consensusTimestamp := none, topicId := none, sequenceNumber := none }
      match consensus with
      | .error msg => { status := errStatus msg, consensus := none, log := log }
      | .ok copt =>
        let decision :=
          match copt with
          | some c => applyConsensus decision c
          | none => decision
        { status := 200, consensus := copt, log := recordDecision log decision }

/-- Fallback-policy knobs of the traffic agent (`trafficGraph.ts`
`TrafficConfig`; the URL fields play no role in the decision rule). -/
structure TrafficConfig where
  threshold : ℚ
  d0 : ℚ
  d1 : ℚ
deriving DecidableEq, Repr

inductive TrafficStrategy where
  | fallback_ns
  | fallback_ew
  | policy
deriving DecidableEq, Repr

structure TrafficPlanDecision where
  plan : TrafficPlan
  strategy : TrafficStrategy
deriving DecidableEq, Repr

/-- Embedding of `fallbackPlan` (`trafficGraph.ts` 73-87): the dominant
approach is `NS` when `queueNS >= queueEW`. -/
def fallbackPlan (queueNS queueEW : ℚ) (cfg : TrafficConfig) : TrafficPlanDecision :=
  let dominantNS := queueEW ≤ queueNS
  let peakQueue := max queueNS queueEW
  let duration := if cfg.threshold < peakQueue then cfg.d1 else cfg.d0
  if dominantNS then
    { plan := { ns := .green, eo := .red, durationSec := duration }, strategy := .fallback_ns }
  else
    { plan := { ns := .red, eo := .green, durationSec := duration }, strategy := .fallback_ew }

/-- Rail-agent knobs (`railGraph.ts` `RailConfig`; URL fields omitted). -/
structure RailConfig where
  closeLeadMs : ℚ
deriving DecidableEq, Repr

inductive RailStrategy where
  | eta_threshold
  | policy
deriving DecidableEq, Repr

structure RailCommandDecision where
  command : RailCommand
  strategy : RailStrategy
deriving DecidableEq, Repr

/-- Embedding of `fallbackCommand` (`railGraph.ts` 45-50). The ETA is a JS
number that may be `NaN` (modelled as `none`, for which `eta <= closeLeadMs`
is false). -/
def fallbackCommand (eta : Option ℚ) (cfg : RailConfig) : RailCommandDecision :=
  match eta with
  | some q =>
    if q ≤ cfg.closeLeadMs then
      { command := { state := .CLOSED }, strategy := .eta_threshold }
    else
      { command := { state := .OPEN }, strategy := .eta_threshold }
  | none => { command := { state := .OPEN }, strategy := .eta_threshold }

/-- The ETA a rail tick reads from a dequeued item:
`Number(item.value?.etaMs ?? item.value?.eta_ms ?? 30000)` (`railGraph.ts`
line 77); `none` is a non-finite result. -/
def railEta (value : RawVal) : Option ℚ :=
  match value with
  | .robj fields =>
    match nullishLookup fields ["etaMs", "eta_ms"] with
    | some leaf => leafNum leaf
    | none => some 30000
  | _ => some 30000

/-- Whether `RailObservationSchema.safeParse` accepts the built observation:
`eta_ms` must be a (finite) nonnegative number; the `barrier_closed` flag the
tick supplies is always 0 or 1 and never fails validation. -/
def railObsValid (eta : Option ℚ) : Bool :=
  match eta with
  | some q => decide (0 ≤ q)
  | none => false

/-- The module-level `lastBarrierState` variable of `railGraph.ts` has the
TS type `'OPEN' | 'CLOSED'`. -/
inductive RememberedBarrier where
  | OPEN
  | CLOSED
deriving DecidableEq, Repr

/-- Initial value of `lastBarrierState` (`railGraph.ts` line 29). -/
def railInitialBarrierState : RememberedBarrier := .OPEN

/-- The `barrier_closed` component the next tick's observation reports
(`railGraph.ts` line 80). -/
def barrierClosedObs (st : RememberedBarrier) : ℚ :=
  if st = .CLOSED then 1 else 0

/-- Decision source recorded by the agents. -/
inductive Source where
  | policy
  | fallback
deriving DecidableEq, Repr

/-- A dequeued rail measurement as the tick sees it. -/
structure RailItem where
  location : Option String
  value : RawVal
deriving Repr

/-- Outcomes of the external calls one rail tick makes: the backend infer
request (with `BarrierSchema.parse` applied to its command) and the direct
inference request; `none` means the call or the parse threw. -/
structure RailTickEnv where
  backendCommand : Option RailCommand
  hasInferenceUrl : Bool
  directCommand : Option RailCommand

inductive RailTickResult where
  | skipped
  | applied (command : RailCommand) (source : Source) (location : String) (etaMs : Option ℚ)
deriving DecidableEq, Repr

/-- Embedding of `tickRail` (`railGraph.ts` 69-194), returning the tick's
result and the new `lastBarrierState`. Actuation and decision logging are
fire-and-forget side effects that influence neither. -/
def tickRail (st : RememberedBarrier) (item : Option RailItem) (cfg : RailConfig)
    (env : RailTickEnv) : RailTickResult × RememberedBarrier :=
  match item with
  | none => (.skipped, st)
  | some item =>
    let eta := railEta item.value
    let obsValid := railObsValid eta
    let backendDecision := if obsValid then env.backendCommand else none
    let chosen : RailCommand × Source :=
      match backendDecision with
      | some c => (c, .policy)
      | none =>
        match (if obsValid && env.hasInferenceUrl then env.directCommand else none) with
        | some c => (c, .policy)
        | none => ((fallbackCommand eta cfg).command, .fallback)
    let newState : RememberedBarrier := if chosen.1.state = .CLOSED then .CLOSED else .OPEN
    (.applied chosen.1 chosen.2 (item.location.getD "") eta, newState)

/-- Latest traffic summary fed to the supervisor (`supervisorGraph.ts`
`TrafficStatus`). -/
structure TrafficStatus where
  applied : Option Bool
  plan : Option TrafficPlan
  source : Option Source
  location : Option String
  queueNS : Option ℚ
  queueEW : Option ℚ
  progress : Option ℚ
  congestion : Option ℚ

/-- Latest rail summary fed to the supervisor. -/
structure RailStatus where
  applied : Option Bool
  command : Option RailCommand
  source : Option Source
  location : Option String
  etaMs : Option ℚ

structure SupervisorContext where
  traffic : Option TrafficStatus
  rail : Option RailStatus

/-- The anomaly list `tickSupervisor` accumulates (`supervisorGraph.ts`
31-51), in push order. -/
def supervisorAnomalies (ctx : SupervisorContext) : List String :=
  let anomalies : List String := []
  let anomalies :=
    match ctx.traffic.bind TrafficStatus.plan, ctx.rail.bind RailStatus.command with
    | some plan, some command =>
      let anomalies :=
        if command.state = .CLOSED ∧ plan.ns = .green then
          anomalies ++ ["Barrier closed while north-south lights are green."]
        else anomalies
      if command.state = .OPEN ∧ plan.eo = .green ∧ plan.ns = .red then
        anomalies ++ ["Barrier open while east-west traffic flows; verify interlocks."]
      else anomalies
    | _, _ => anomalies
  let anomalies :=
    if ctx.traffic.bind TrafficStatus.source = some .fallback then
      anomalies ++ ["Traffic controller in fallback mode."]
    else anomalies
  if ctx.rail.bind RailStatus.source = some .fallback then
    anomalies ++ ["Rail controller in fallback mode."]
  else anomalies

structure SupervisorReport where
  ok : Bool
  anomalies : List String
deriving DecidableEq, Repr

/-- Embedding of `tickSupervisor` (`supervisorGraph.ts` 31-68); the optional
consensus anchoring of the report does not affect the returned value. -/
def tickSupervisor (ctx : SupervisorContext) : SupervisorReport :=
  let anomalies := supervisorAnomalies ctx
  { ok := anomalies.length == 0, anomalies := anomalies }

/-- A run where the barrier is OPEN and the traffic plan is {ns: red,
eo: green}, both domains on policy decisions. -/
def supervisorOpenEwCtx : SupervisorContext :=
  { traffic := some
      { applied := some true
        plan := some { ns := .red, eo := .green, durationSec := 30 }
        source := some .policy, location := none, queueNS := none
        queueEW := none, progress := none, congestion := none }
    rail := some
      { applied := some true, command := some { state := .OPEN }
        source := some .policy, location := none, etaMs := none } }

/-- A valid traffic infer request body. -/
def c1Body : TrafficInferBody :=
  { queue_ns := some 25, queue_ew := some 10, wait_ns := none, wait_ew := none
    is_ns_green := none, progress := none, location := some "junction-a"
    source := some "agent" }

/-- A successful inference response. -/
def c1Inference : TrafficInferenceResult :=
  { plan := .robj [], action_index := 1, confidence := 9 / 10, policy_metadata := none }

/-- Two same-junction traffic ingestion requests, used as a concrete
snapshot scenario. -/
def snapshotWitnessReqs : List IngestReq :=
  [{ kind := "traffic", location := "j1", value := .rnum 3, ts := some 1, now := 1 },
   { kind := "traffic", location := "j1", value := .rnum 8, ts := some 2, now := 2 }]

/-- A sample decision entry. -/
def sampleDecision : DecisionLog :=
  { agent := .traffic, location := some "J1", source := some "agent"
    observation := .robj [], decision := .robj [], status := "APPLIED", ts := 100
    confidence := none, actionIndex := none, policyMetadata := none, reasoning := none
    consensusTimestamp := none, topicId := none, sequenceNumber := none }

section MapLemmas

theorem mapContains_eq_false_iff {β : Type} {m : List (String × β)} {k : String} :
    mapContains m k = false ↔ ∀ p ∈ m, (p.1 == k) = false := by
  unfold mapContains
  rw [List.any_eq_false]
  constructor
  · intro h p hp
    simpa using h p hp
  · intro h p hp
    simp [h p hp]

theorem map_replace_id {β : Type} (k : String) (v : β) :
    ∀ m : List (String × β), (∀ p ∈ m, (p.1 == k) = false) →
      m.map (fun q => if q.1 == k then (k, v) else q) = m := by
  intro m
  induction m with
  | nil => intro _; rfl
  | cons p m ih =>
    intro h
    rw [List.map_cons, if_neg (by simp [h p (by simp)]),
      ih (fun q hq => h q (by simp [hq]))]

theorem mapGet_mapSet_self {β : Type} (m : List (String × β)) (k : String) (v : β) :
    mapGet (mapSet m k v) k = some v := by
  induction m with
  | nil => simp [mapSet, mapContains, mapGet]
  | cons p m ih =>
    unfold mapSet mapContains at ih ⊢
    rw [List.any_cons]
    cases hp : (p.1 == k) with
    | true =>
      rw [if_pos (by simp [hp]), List.map_cons, if_pos hp, mapGet, if_pos (by simp)]
    | false =>
      cases hc : m.any (fun p => p.1 == k) with
      | true =>
        rw [if_pos hc] at ih
        rw [if_pos (by simp [hp, hc]), List.map_cons, if_neg (by simp [hp]), mapGet,
          if_neg (by simp [hp])]
        exact ih
      | false =>
        rw [if_neg (by simp [hc])] at ih
        rw [if_neg (by simp [hp, hc]), List.cons_append, mapGet, if_neg (by simp [hp])]
        exact ih

theorem mapGet_mapSet_ne {β : Type} (m : List (String × β)) (k k' : String) (v : β)
    (hne : k' ≠ k) : mapGet (mapSet m k v) k' = mapGet m k' := by
  have hkk : (k == k') = false := by
    simp only [beq_eq_false_iff_ne, ne_eq]
    exact fun he => hne he.symm
  induction m with
  | nil => simp [mapSet, mapContains, mapGet, hkk]
  | cons p m ih =>
    unfold mapSet mapContains at ih ⊢
    rw [List.any_cons]
    cases hp : (p.1 == k) with
    | true =>
      have hpk : p.1 = k := by simpa using hp
      have hpk' : (p.1 == k') = false := by rw [hpk]; exact hkk
      rw [if_pos (by simp [hp]), List.map_cons, if_pos hp, mapGet, if_neg (by simp [hkk]),
        mapGet, if_neg (by simp [hpk'])]
      cases hc : m.any (fun q => q.1 == k) with
      | true =>
        rw [if_pos hc] at ih
        exact ih
      | false =>
        rw [map_replace_id k v m (mapContains_eq_false_iff.mp (by simpa [mapContains] using hc))]
    | false =>
      cases hc : m.any (fun q => q.1 == k) with
      | true =>
        rw [if_pos hc] at ih
        rw [if_pos (by simp [hp, hc]), List.map_cons, if_neg (by simp [hp]), mapGet, mapGet]
        cases hpk' : (p.1 == k') with
        | true => rw [if_pos (by simp [hpk']), if_pos (by simp [hpk'])]
        | false => rw [if_neg (by simp [hpk']), if_neg (by simp [hpk'])]; exact ih
      | false =>
        rw [if_neg (by simp [hc])] at ih
        rw [if_neg (by simp [hp, hc]), List.cons_append, mapGet, mapGet]
        cases hpk' : (p.1 == k') with
        | true => rw [if_pos (by simp [hpk']), if_pos (by simp [hpk'])]
        | false => rw [if_neg (by simp [hpk']), if_neg (by simp [hpk'])]; exact ih

theorem mem_mapSet {β : Type} {m : List (String × β)} {k : String} {v : β} {p : String × β}
    (hp : p ∈ mapSet m k v) :
    p = (k, v) ∨ (p ∈ m ∧ (p.1 == k) = false) := by
  unfold mapSet at hp
  split_ifs at hp with h
  · rcases List.mem_map.mp hp with ⟨q, hq, hfq⟩
    cases hqk : (q.1 == k) with
    | true => left; rw [← hfq, if_pos hqk]
    | false => right; rw [← hfq, if_neg (by simp [hqk])]; exact ⟨hq, hqk⟩
  · rcases List.mem_append.mp hp with hm | hkv
    · right
      have hfalse := mapContains_eq_false_iff.mp (by simpa using h)
      exact ⟨hm, hfalse p hm⟩
    · left; simpa using hkv

theorem keys_mapSet_present {β : Type} (m : List (String × β)) (k : String) (v : β)
    (h : mapContains m k = true) :
    (mapSet m k v).map (fun p => p.1) = m.map (fun p => p.1) := by
  unfold mapSet
  rw [if_pos h, List.map_map]
  apply List.map_congr_left
  intro p _
  cases hp : (p.1 == k) with
  | true =>
    have hpk : p.1 = k := by simpa using hp
    simp [Function.comp, hp, hpk]
  | false => simp [Function.comp, hp]

theorem keys_mapSet_absent {β : Type} (m : List (String × β)) (k : String) (v : β)
    (h : mapContains m k = false) :
    (mapSet m k v).map (fun p => p.1) = m.map (fun p => p.1) ++ [k] := by
  unfold mapSet
  rw [if_neg (by simp [h]), List.map_append]
  rfl

end MapLemmas

section FallbackPolicy

/-- C3: FallbackPolicy is a deterministic pure function. Traffic: the
dominant approach is the one with the larger queue (ties favour
north-south), the dominant approach is green and the other red, and the
duration is `d1` exactly when the peak queue strictly exceeds the threshold,
else `d0`; queues {ns: 25, ew: 10} with threshold 20, d0 15, d1 30 give
{ns: green, ew: red, durationSec: 30}. Rail: the command is CLOSED iff
`eta <= closeLeadMs`, else OPEN; eta 18000 with closeLeadMs 20000 gives
CLOSED and eta 25000 gives OPEN. -/
theorem fallbackPolicy_deterministic_rule :
    (∀ (queueNS queueEW : ℚ) (cfg : TrafficConfig),
      (fallbackPlan queueNS queueEW cfg).plan =
        (if queueEW ≤ queueNS then
          { ns := .green, eo := .red
            durationSec := if cfg.threshold < max queueNS queueEW then cfg.d1 else cfg.d0 }
        else
          { ns := .red, eo := .green
            durationSec := if cfg.threshold < max queueNS queueEW then cfg.d1 else cfg.d0 }))
  ∧ fallbackPlan 25 10 { threshold := 20, d0 := 15, d1 := 30 } =
      { plan := { ns := .green, eo := .red, durationSec := 30 }, strategy := .fallback_ns }
  ∧ (∀ (eta : ℚ) (cfg : RailConfig),
      ((fallbackCommand (some eta) cfg).command.state = .CLOSED ↔ eta ≤ cfg.closeLeadMs)
      ∧ ((fallbackCommand (some eta) cfg).command.state = .OPEN ↔ ¬ eta ≤ cfg.closeLeadMs))
  ∧ fallbackCommand (some 18000) { closeLeadMs := 20000 } =
      { command := { state := .CLOSED }, strategy := .eta_threshold }
  ∧ fallbackCommand (some 25000) { closeLeadMs := 20000 } =
      { command := { state := .OPEN }, strategy := .eta_threshold } := by
  refine ⟨?_, by decide, ?_, by decide, by decide⟩
  · intro qns qew cfg
    by_cases h : qew ≤ qns <;> simp [fallbackPlan, h]
  · intro eta cfg
    by_cases h : eta ≤ cfg.closeLeadMs <;> simp [fallbackCommand, h]

/-- Witness for `fallbackPolicy_deterministic_rule`: the rail iff at a
concrete ETA and lead time. -/
theorem fallbackPolicy_deterministic_rule_witness :
    (fallbackCommand (some 18000) { closeLeadMs := 20000 }).command.state = .CLOSED :=
  (fallbackPolicy_deterministic_rule.2.2.1 18000 { closeLeadMs := 20000 }).1.mpr (by norm_num)

end FallbackPolicy

section Retention

theorem recordDecision_eq_drop (l : List DecisionLog) (d : DecisionLog) :
    recordDecision l d = (l ++ [d]).drop (l.length + 1 - DECISION_HISTORY_LIMIT) := by
  unfold recordDecision
  dsimp only
  split_ifs with h
  · simp only [List.length_append, List.length_singleton] at *
  · rw [List.length_append, List.length_singleton] at h
    rw [Nat.sub_eq_zero_of_le (by omega), List.drop_zero]

theorem foldl_recordDecision_eq_drop (ds : List DecisionLog) :
    ds.foldl recordDecision [] = ds.drop (ds.length - DECISION_HISTORY_LIMIT) := by
  induction ds using List.reverseRecOn with
  | nil => rfl
  | append_singleton ds d ih =>
    rw [List.foldl_append, List.foldl_cons, List.foldl_nil, ih, recordDecision_eq_drop,
      List.length_drop, ← List.drop_append_of_le_length (by omega), List.drop_drop]
    rw [List.length_append, List.length_singleton]
    have harith : ds.length - DECISION_HISTORY_LIMIT +
        (ds.length - (ds.length - DECISION_HISTORY_LIMIT) + 1 - DECISION_HISTORY_LIMIT) =
        ds.length + 1 - DECISION_HISTORY_LIMIT := by omega
    rw [harith]

/-- C5: after any sequence of `record` calls the decision log holds at most
1000 decisions, and the log is exactly the suffix of the recorded sequence:
entries are evicted strictly from the front (oldest first), so the most
recently recorded 1000 decisions remain. -/
theorem decisionLog_retention (ds : List DecisionLog) :
    (ds.foldl recordDecision []).length ≤ DECISION_HISTORY_LIMIT
  ∧ ds.foldl recordDecision [] = ds.drop (ds.length - DECISION_HISTORY_LIMIT) := by
  refine ⟨?_, foldl_recordDecision_eq_drop ds⟩
  rw [foldl_recordDecision_eq_drop, List.length_drop]
  omega

end Retention

section Supervisor

/-- C6 counterexample: with the barrier OPEN (not CLOSED) and the
north-south phase red (not green), `tickSupervisor` still reports an
anomaly and `ok = false`, refuting "for every other combination it reports
no anomaly and ok = true". -/
theorem supervisor_flags_other_combinations :
    (tickSupervisor supervisorOpenEwCtx).ok = false
  ∧ (tickSupervisor supervisorOpenEwCtx).anomalies =
      ["Barrier open while east-west traffic flows; verify interlocks."]
  ∧ (supervisorOpenEwCtx.rail.bind RailStatus.command ≠ some { state := .CLOSED })
  ∧ ((supervisorOpenEwCtx.traffic.bind TrafficStatus.plan).map TrafficPlan.ns
      ≠ some Phase.green) := by
  refine ⟨rfl, rfl, by simp [supervisorOpenEwCtx], by simp [supervisorOpenEwCtx]⟩

/-- C6 amended: `tickSupervisor` reports `ok = true` exactly when none of
its four anomaly conditions holds: barrier CLOSED with north-south green;
barrier OPEN with east-west green and north-south red (both only checked
when a traffic plan and a rail command are both present); the traffic
summary in fallback mode; the rail summary in fallback mode. -/
theorem supervisor_ok_characterization (ctx : SupervisorContext) :
    (tickSupervisor ctx).ok = true ↔
      (¬ ∃ plan command, ctx.traffic.bind TrafficStatus.plan = some plan
          ∧ ctx.rail.bind RailStatus.command = some command
          ∧ ((command.state = .CLOSED ∧ plan.ns = .green)
             ∨ (command.state = .OPEN ∧ plan.eo = .green ∧ plan.ns = .red)))
      ∧ ctx.traffic.bind TrafficStatus.source ≠ some .fallback
      ∧ ctx.rail.bind RailStatus.source ≠ some .fallback := by
  show ((supervisorAnomalies ctx).length == 0) = true ↔ _
  rw [beq_iff_eq, List.length_eq_zero]
  unfold supervisorAnomalies
  rcases htp : ctx.traffic.bind TrafficStatus.plan with _ | plan <;>
    rcases hrc : ctx.rail.bind RailStatus.command with _ | command <;>
    dsimp only <;> split_ifs <;>
    simp_all [List.append_eq_nil]

/-- Witness for `supervisor_ok_characterization`: an empty context has no
anomalies. -/
theorem supervisor_ok_characterization_witness :
    (tickSupervisor { traffic := none, rail := none }).ok = true :=
  (supervisor_ok_characterization { traffic := none, rail := none }).mpr
    (by simp)

end Supervisor

section ConsensusWait

/-- C8: with a zero consensus wait budget, `POST /control/decisions/log`
responds `consensusPending = true` with a `null` consensus field — never a
populated ConsensusRef synchronously — for every possible behaviour of the
submission promise; the decision is recorded immediately without consensus
fields, and a successful confirmation only fills them into the stored
record after the response (`logFinal`). -/
theorem consensusWaitZero_alwaysPending (log : List DecisionLog) (payload : LogPayload)
    (now : ℚ) (beh : ConsensusBehavior) (a : Agent)
    (h : parseAgent (lowerString (payload.agent.getD "")) = some a) :
    (decisionsLogRoute log payload now 0 beh).consensusPending = true
  ∧ (decisionsLogRoute log payload now 0 beh).consensus = none
  ∧ (decisionsLogRoute log payload now 0 beh).status = 200
  ∧ (∃ entry, (decisionsLogRoute log payload now 0 beh).log = recordDecision log entry
      ∧ entry.topicId = none ∧ entry.sequenceNumber = none
      ∧ entry.consensusTimestamp = none ∧ entry.agent = a)
  ∧ (∀ r, beh.outcome = .ok (some r) →
      ∃ entry, (decisionsLogRoute log payload now 0 beh).logFinal = recordDecision log entry
        ∧ entry.topicId = some r.topicId) := by
  unfold decisionsLogRoute
  rw [h]
  dsimp only
  refine ⟨by simp, by simp, rfl, ⟨_, rfl, rfl, rfl, rfl, rfl⟩, ?_⟩
  intro r hr
  simp only [consensusSettled, hr]
  exact ⟨_, rfl, rfl⟩

/-- Witness for `consensusWaitZero_alwaysPending` at a concrete request
whose submission would confirm immediately. -/
theorem consensusWaitZero_alwaysPending_witness :
    (decisionsLogRoute []
      { agent := some "rail", location := some "crossing-1", source := some "agent"
        ts := some 1700000000000, status := none, confidence := none, actionIndex := none
        policyMetadata := none, observation := none, decision := .robj []
        reasoning := none }
      1700000000000 0
      { settleAt := 0
        outcome := .ok (some { topicId := "0.0.1234", consensusTimestamp := none
                               sequenceNumber := some "1" }) }).consensusPending = true
  ∧ (decisionsLogRoute []
      { agent := some "rail", location := some "crossing-1", source := some "agent"
        ts := some 1700000000000, status := none, confidence := none, actionIndex := none
        policyMetadata := none, observation := none, decision := .robj []
        reasoning := none }
      1700000000000 0
      { settleAt := 0
        outcome := .ok (some { topicId := "0.0.1234", consensusTimestamp := none
                               sequenceNumber := some "1" }) }).consensus = none := by
  have h := consensusWaitZero_alwaysPending []
    { agent := some "rail", location := some "crossing-1", source := some "agent"
      ts := some 1700000000000, status := none, confidence := none, actionIndex := none
      policyMetadata := none, observation := none, decision := .robj []
      reasoning := none }
    1700000000000
    { settleAt := 0
      outcome := .ok (some { topicId := "0.0.1234", consensusTimestamp := none
                             sequenceNumber := some "1" }) }
    .rail (by decide)
  exact ⟨h.1, h.2.1⟩

end ConsensusWait

section ConsensusErrors

/-- C1 counterexample: on `POST /control/traffic/infer` with a valid
observation and a successful inference, a rejected `submitDecisionToConsensus`
call makes the handler's catch block answer 502 and the decision is never
appended to the log — the consensus error does abort decision recording. -/
theorem inferRoute_consensus_error_aborts :
    (trafficInferRoute [] c1Body (.ok c1Inference)
      (.error "hedera submit failed: network unreachable") 0).log = []
  ∧ (trafficInferRoute [] c1Body (.ok c1Inference)
      (.error "hedera submit failed: network unreachable") 0).status = 502 := by
  constructor <;> rfl

/-- C1 amended: a consensus-submission error never aborts decision recording
for `POST /control/decisions/log` — the decision is appended (without
consensus fields when the submission failed) and the request succeeds for
every submission behaviour — and the infer routes record the decision
whenever `submitDecisionToConsensus` resolves (including `null`, anchoring
disabled); but when the submission call throws, the infer routes abort with
the catch block's error status and do not record the decision. -/
theorem consensus_error_handling :
    (∀ (log : List DecisionLog) (payload : LogPayload) (now : ℚ) (waitMs : ℕ)
        (beh : ConsensusBehavior) (a : Agent),
      parseAgent (lowerString (payload.agent.getD "")) = some a →
        (decisionsLogRoute log payload now waitMs beh).status = 200
        ∧ (∃ entry, (decisionsLogRoute log payload now waitMs beh).log =
              recordDecision log entry ∧ entry.agent = a)
        ∧ (∀ msg, beh.outcome = .error msg →
            ∃ entry, (decisionsLogRoute log payload now waitMs beh).log =
                recordDecision log entry
              ∧ entry.topicId = none ∧ entry.sequenceNumber = none
              ∧ entry.consensusTimestamp = none))
  ∧ (∀ (log : List DecisionLog) (body : TrafficInferBody)
        (obs : TrafficObservationPayload) (inf : TrafficInferenceResult)
        (copt : Option ConsensusLogResult) (now : ℚ),
      parseTrafficObservation body = .ok obs →
        ∃ entry, (trafficInferRoute log body (.ok inf) (.ok copt) now).log =
            recordDecision log entry)
  ∧ (∀ (log : List DecisionLog) (body : TrafficInferBody)
        (obs : TrafficObservationPayload) (inf : TrafficInferenceResult)
        (msg : String) (now : ℚ),
      parseTrafficObservation body = .ok obs →
        (trafficInferRoute log body (.ok inf) (.error msg) now).log = log
        ∧ (trafficInferRoute log body (.ok inf) (.error msg) now).status = errStatus msg)
  ∧ (∀ (log : List DecisionLog) (body : RailInferBody)
        (obs : RailObservationPayload) (inf : RailInferenceResult)
        (copt : Option ConsensusLogResult) (now : ℚ),
      parseRailObservation body = .ok obs →
        ∃ entry, (railInferRoute log body (.ok inf) (.ok copt) now).log =
            recordDecision log entry)
  ∧ (∀ (log : List DecisionLog) (body : RailInferBody)
        (obs : RailObservationPayload) (inf : RailInferenceResult)
        (msg : String) (now : ℚ),
      parseRailObservation body = .ok obs →
        (railInferRoute log body (.ok inf) (.error msg) now).log = log
        ∧ (railInferRoute log body (.ok inf) (.error msg) now).status = errStatus msg) := by
  refine ⟨?_, ?_, ?_, ?_, ?_⟩
  · intro log payload now waitMs beh a h
    unfold decisionsLogRoute
    rw [h]
    dsimp only
    refine ⟨rfl, ⟨_, rfl, ?_⟩, ?_⟩
    · split <;> rfl
    · intro msg hmsg
      simp only [consensusSettled, hmsg]
      split_ifs <;> exact ⟨_, rfl, rfl, rfl, rfl⟩
  · intro log body obs inf copt now h
    unfold trafficInferRoute
    rw [h]
    dsimp only
    cases copt <;> exact ⟨_, rfl⟩
  · intro log body obs inf msg now h
    unfold trafficInferRoute
    rw [h]
    exact ⟨rfl, rfl⟩
  · intro log body obs inf copt now h
    unfold railInferRoute
    rw [h]
    dsimp only
    cases copt <;> exact ⟨_, rfl⟩
  · intro log body obs inf msg now h
    unfold railInferRoute
    rw [h]
    exact ⟨rfl, rfl⟩

/-- Witness for `consensus_error_handling`: the log route still records when
the submission rejects. -/
theorem consensus_error_handling_witness :
    (decisionsLogRoute []
      { agent := some "traffic", location := none, source := none, ts := some 5
        status := none, confidence := none, actionIndex := none, policyMetadata := none
        observation := none, decision := .robj [], reasoning := none }
      5 1500 { settleAt := 10, outcome := .error "credentials rejected" }).status = 200 :=
  (consensus_error_handling.1 []
    { agent := some "traffic", location := none, source := none, ts := some 5
      status := none, confidence := none, actionIndex := none, policyMetadata := none
      observation := none, decision := .robj [], reasoning := none }
    5 1500 { settleAt := 10, outcome := .error "credentials rejected" }
    .traffic (by decide)).1

end ConsensusErrors

section Fifo

/-- The `findIndex` / `splice(idx, 1)` pair removes exactly the first match:
the found element heads the filtered list and erasing it leaves the
filtered tail. -/
theorem findIdx_erase_spec {α : Type} (p : α → Bool) (l : List α) :
    (l.findIdx? p = none → l.filter p = [])
    ∧ ∀ i, l.findIdx? p = some i →
        l.get? i = (l.filter p).head? ∧ (l.eraseIdx i).filter p = (l.filter p).tail := by
  induction l with
  | nil => exact ⟨fun _ => rfl, fun i h => by rw [List.findIdx?_nil] at h; cases h⟩
  | cons a l ih =>
    rw [List.findIdx?_cons, List.findIdx?_succ]
    by_cases hpa : p a
    · refine ⟨fun h => by simp [hpa] at h, fun i h => ?_⟩
      rw [if_pos hpa] at h
      cases h
      simp [List.filter_cons, hpa]
    · have hfa : (if p a = true then some 0 else Option.map (fun i => i + 1) (l.findIdx? p))
          = Option.map (fun i => i + 1) (l.findIdx? p) := if_neg hpa
      refine ⟨fun h => ?_, fun i h => ?_⟩
      · rw [hfa] at h
        rcases hl : l.findIdx? p with _ | j
        · simp [List.filter_cons, hpa, ih.1 hl]
        · rw [hl] at h
          simp at h
      · rw [hfa] at h
        rcases hl : l.findIdx? p with _ | j
        · rw [hl] at h
          simp at h
        · rw [hl] at h
          simp only [Option.map_some'] at h
          cases h
          have hj := ih.2 j hl
          constructor
          · rw [List.get?_cons_succ, List.filter_cons, if_neg (by simp [hpa])]
            exact hj.1
          · rw [List.eraseIdx, List.filter_cons, if_neg (by simp [hpa]),
              List.filter_cons, if_neg (by simp [hpa])]
            exact hj.2

theorem getNext_item (store : MemoryStore) (k : String) :
    (getNext store k).item = (store.measurements.filter (fun m => m.kind == k)).head? := by
  unfold getNext
  rcases h : store.measurements.findIdx? (fun m => m.kind == k) with _ | i <;> rw [h]
  · rw [(findIdx_erase_spec _ _).1 h]; rfl
  · exact ((findIdx_erase_spec _ _).2 i h).1

theorem getNext_rest (store : MemoryStore) (k : String) :
    (getNext store k).store.measurements.filter (fun m => m.kind == k) =
      (store.measurements.filter (fun m => m.kind == k)).tail := by
  unfold getNext
  rcases h : store.measurements.findIdx? (fun m => m.kind == k) with _ | i <;> rw [h]
  · rw [(findIdx_erase_spec _ _).1 h]; rfl
  · exact ((findIdx_erase_spec _ _).2 i h).2

/-- Draining with the dequeue route returns exactly the pending measurements
of that kind, oldest first, up to the available fuel. -/
theorem drain_eq_take (k : String) :
    ∀ (fuel : ℕ) (store : MemoryStore),
      drain store k fuel = (store.measurements.filter (fun m => m.kind == k)).take fuel := by
  intro fuel
  induction fuel with
  | zero => intro store; rfl
  | succ n ih =>
    intro store
    have hitem := getNext_item store k
    have hrest := getNext_rest store k
    rcases hg : getNext store k with ⟨item, store'⟩
    rw [hg] at hitem hrest
    dsimp only at hitem hrest
    rcases hf : store.measurements.filter (fun m => m.kind == k) with _ | ⟨m, rest⟩ <;>
      rw [hf] at hitem hrest
    · simp only [List.head?] at hitem
      subst hitem
      rw [hf]
      simp [drain, hg]
    · simp only [List.head?] at hitem
      subst hitem
      simp only [drain, hg]
      rw [ih store', hrest, hf, List.take_succ_cons, List.tail_cons]

theorem postIngest_measurements (store : MemoryStore) (r : IngestReq)
    (hk : r.kind ≠ "") (hl : r.location ≠ "") :
    (postIngest store r.kind r.location (some r.value) r.ts r.now).store.measurements =
      store.measurements ++ [mkItem r] := by
  unfold postIngest
  rw [if_neg (by simp [hk, hl])]
  rfl

theorem applyIngests_measurements (reqs : List IngestReq)
    (hvalid : ∀ r ∈ reqs, r.kind ≠ "" ∧ r.location ≠ "") :
    ∀ store : MemoryStore,
      (applyIngests store reqs).measurements = store.measurements ++ reqs.map mkItem := by
  induction reqs with
  | nil => intro store; simp [applyIngests]
  | cons r rs ih =>
    intro store
    have hr := hvalid r (by simp)
    rw [applyIngests, ih (fun x hx => hvalid x (by simp [hx])),
      postIngest_measurements store r hr.1 hr.2]
    simp

/-- C2: measurements ingested via `POST /ingest` are returned by
`GET /ingest/next` in ingestion order (FIFO per kind); a dequeue removes the
returned measurement, so each is returned at most once; and the route
returns a null item when no pending measurement of the kind exists (the
filtered queue is empty). -/
theorem ingest_fifo_at_most_once (reqs : List IngestReq) (k : String)
    (hvalid : ∀ r ∈ reqs, r.kind ≠ "" ∧ r.location ≠ "") :
    (∀ store : MemoryStore,
      (getNext store k).item = (store.measurements.filter (fun m => m.kind == k)).head?)
  ∧ (∀ store : MemoryStore,
      (getNext store k).store.measurements.filter (fun m => m.kind == k) =
        (store.measurements.filter (fun m => m.kind == k)).tail)
  ∧ (∀ fuel : ℕ,
      ((reqs.map mkItem).filter (fun m => m.kind == k)).length ≤ fuel →
        drain (applyIngests MemoryStore.empty reqs) k fuel =
          (reqs.map mkItem).filter (fun m => m.kind == k)) := by
  refine ⟨fun store => getNext_item store k, fun store => getNext_rest store k, ?_⟩
  intro fuel hfuel
  rw [drain_eq_take, applyIngests_measurements reqs hvalid]
  simp only [MemoryStore.empty, List.nil_append]
  exact List.take_of_length_le hfuel

/-- Witness for `ingest_fifo_at_most_once`: two rail measurements and one
traffic measurement in between come back in rail-ingestion order. -/
theorem ingest_fifo_at_most_once_witness :
    drain
      (applyIngests MemoryStore.empty
        [{ kind := "rail", location := "x1", value := .rnum 12000, ts := some 1, now := 1 },
         { kind := "traffic", location := "j1", value := .rnum 7, ts := some 2, now := 2 },
         { kind := "rail", location := "x2", value := .rnum 9000, ts := some 3, now := 3 }])
      "rail" 3 =
      ([{ kind := "rail", location := "x1", value := .rnum 12000, ts := some 1, now := 1 },
        { kind := "traffic", location := "j1", value := .rnum 7, ts := some 2, now := 2 },
        { kind := "rail", location := "x2", value := .rnum 9000, ts := some 3, now := 3 }].map
          mkItem).filter (fun m => m.kind == "rail") :=
  (ingest_fifo_at_most_once
    [{ kind := "rail", location := "x1", value := .rnum 12000, ts := some 1, now := 1 },
     { kind := "traffic", location := "j1", value := .rnum 7, ts := some 2, now := 2 },
     { kind := "rail", location := "x2", value := .rnum 9000, ts := some 3, now := 3 }]
    "rail" (by decide)).2.2 3 (by decide)

end Fifo

section Snapshot

theorem postIngest_latestByLocation (store : MemoryStore) (r : IngestReq)
    (hk : r.kind ≠ "") (hl : r.location ≠ "") :
    (postIngest store r.kind r.location (some r.value) r.ts r.now).store.latestByLocation =
      mapSet store.latestByLocation r.kind
        (mapSet ((mapGet store.latestByLocation r.kind).getD []) r.location (mkItem r)) := by
  unfold postIngest
  rw [if_neg (by simp [hk, hl])]
  rfl

theorem applyIngests_append (store : MemoryStore) (rs : List IngestReq) (r : IngestReq) :
    applyIngests store (rs ++ [r]) =
      (postIngest (applyIngests store rs) r.kind r.location (some r.value) r.ts r.now).store := by
  induction rs generalizing store with
  | nil => rfl
  | cons q rs ih => rw [List.cons_append, applyIngests, applyIngests, ih]

/-- After any valid ingest sequence, the per-kind latest-by-location map has
distinct location keys, each entry is stored under its own location, and
lookup returns exactly the most recently ingested measurement for that
(kind, location). -/
theorem latestByLocation_inv (reqs : List IngestReq) :
    (∀ r ∈ reqs, r.kind ≠ "" ∧ r.location ≠ "") → ∀ kind : String,
    ((((mapGet (applyIngests MemoryStore.empty reqs).latestByLocation kind).getD []).map
        (fun p => p.1)).Nodup)
  ∧ (∀ p ∈ (mapGet (applyIngests MemoryStore.empty reqs).latestByLocation kind).getD [],
      p.2.location = p.1)
  ∧ (∀ loc : String,
      mapGet ((mapGet (applyIngests MemoryStore.empty reqs).latestByLocation kind).getD []) loc =
        ((reqs.filter (fun q => q.kind == kind && q.location == loc)).map mkItem).getLast?) := by
  induction reqs using List.reverseRecOn with
  | nil =>
    intro _ kind
    refine ⟨by simp [applyIngests, MemoryStore.empty, mapGet],
      by simp [applyIngests, MemoryStore.empty, mapGet],
      fun loc => by simp [applyIngests, MemoryStore.empty, mapGet]⟩
  | append_singleton rs r ih =>
    intro hvalid kind
    have hvr := hvalid r (by simp)
    have ihk := ih (fun x hx => hvalid x (by simp [hx])) kind
    rw [applyIngests_append, postIngest_latestByLocation _ r hvr.1 hvr.2]
    by_cases hkind : kind = r.kind
    · subst hkind
      rw [mapGet_mapSet_self]
      simp only [Option.getD_some]
      refine ⟨?_, ?_, ?_⟩
      · cases hcont : mapContains
            ((mapGet (applyIngests MemoryStore.empty rs).latestByLocation r.kind).getD [])
            r.location with
        | true => rw [keys_mapSet_present _ _ _ hcont]; exact ihk.1
        | false =>
          rw [keys_mapSet_absent _ _ _ hcont]
          have hnotin : r.location ∉
              ((mapGet (applyIngests MemoryStore.empty rs).latestByLocation r.kind).getD
                []).map (fun p => p.1) := by
            intro hmem
            rcases List.mem_map.mp hmem with ⟨p, hp, hkey⟩
            have hfp := mapContains_eq_false_iff.mp hcont p hp
            rw [hkey] at hfp
            simp at hfp
          refine List.Nodup.append ihk.1 (List.nodup_singleton _) ?_
          intro x hx hxa
          rw [List.mem_singleton] at hxa
          subst hxa
          exact hnotin hx
      · intro p hp
        rcases mem_mapSet hp with hkv | ⟨hm, _⟩
        · rw [hkv]
          rfl
        · exact ihk.2.1 p hm
      · intro loc
        rw [List.filter_append]
        by_cases hloc : loc = r.location
        · subst hloc
          rw [mapGet_mapSet_self, List.filter_cons, if_pos (by simp)]
          simp only [List.filter_nil, List.map_append, List.map_cons, List.map_nil]
          rw [List.getLast?_concat]
        · rw [mapGet_mapSet_ne _ _ _ _ hloc]
          have hr : (r.location == loc) = false := by
            simp only [beq_eq_false_iff_ne, ne_eq]
            exact fun h => hloc h.symm
          rw [List.filter_cons, if_neg (by simp [hr])]
          simp only [List.filter_nil, List.append_nil]
          exact ihk.2.2 loc
    · rw [mapGet_mapSet_ne _ _ _ _ hkind]
      have hr : (r.kind == kind) = false := by
        simp only [beq_eq_false_iff_ne, ne_eq]
        exact fun h => hkind h.symm
      refine ⟨ihk.1, ihk.2.1, fun loc => ?_⟩
      rw [List.filter_append, List.filter_cons, if_neg (by simp [hr])]
      simp only [List.filter_nil, List.append_nil]
      exact ihk.2.2 loc

/-- In a latest-by-location map with distinct keys where every measurement
sits under its own location, filtering the snapshot rows by location yields
exactly the row of the mapped measurement for that location (or nothing). -/
theorem perLoc_filter_latest (kind loc : String) :
    ∀ perLoc : List (String × Measurement),
      ((perLoc.map (fun p => p.1)).Nodup) →
      (∀ p ∈ perLoc, p.2.location = p.1) →
      ((perLoc.map (fun p => p.2)).map (toSnapshotEntry kind)).filter
          (fun e => e.location == loc) =
        (match mapGet perLoc loc with
         | some m => [toSnapshotEntry kind m]
         | none => []) := by
  intro perLoc
  induction perLoc with
  | nil => intro _ _; rfl
  | cons p rest ih =>
    intro hnd hloc
    have hploc : p.2.location = p.1 := hloc p (by simp)
    have hentry : (toSnapshotEntry kind p.2).location = p.2.location := rfl
    rw [List.map_cons, List.map_cons, List.filter_cons, mapGet]
    cases hpk : (p.1 == loc) with
    | true =>
      have hpl : p.1 = loc := by simpa using hpk
      rw [if_pos (by simp [hentry, hploc, hpl]), if_pos rfl]
      have hrest : ((rest.map (fun q => q.2)).map (toSnapshotEntry kind)).filter
          (fun e => e.location == loc) = [] := by
        rw [List.filter_eq_nil_iff]
        intro e he
        rcases List.mem_map.mp he with ⟨m, hm, hme⟩
        rcases List.mem_map.mp hm with ⟨q, hq, hqm⟩
        have hkey : q.1 ≠ p.1 := by
          intro heq
          rw [List.map_cons] at hnd
          exact (List.nodup_cons.mp hnd).1 (heq ▸ List.mem_map.mpr ⟨q, hq, rfl⟩)
        have : e.location = q.1 := by
          rw [← hme, ← hqm]
          exact (rfl : (toSnapshotEntry kind q.2).location = q.2.location).trans
            (hloc q (by simp [hq]))
        simp [this, hpl ▸ hkey]
      rw [hrest]
    | false =>
      rw [if_neg (by simp [hentry, hploc, hpk]), if_neg (by simp)]
      exact ih (by rw [List.map_cons] at hnd; exact (List.nodup_cons.mp hnd).2)
        (fun q hq => hloc q (by simp [hq]))

/-- C9: `GET /ingest/snapshot` leaves the store (in particular the pending
measurement queue) unchanged, so a dequeue after a snapshot returns exactly
what it would return without the snapshot; and for every location the
snapshot's `latest` collection contains exactly the most-recently-ingested
measurement for that (kind, location), rendered by `toSnapshotEntry`. -/
theorem snapshot_readonly_and_latest (store : MemoryStore) (kind : String)
    (limitRaw : Option ℤ) :
    ((getSnapshot store kind limitRaw).2 = store)
  ∧ (∀ k' : String, getNext (getSnapshot store kind limitRaw).2 k' = getNext store k')
  ∧ (∀ reqs : List IngestReq, (∀ r ∈ reqs, r.kind ≠ "" ∧ r.location ≠ "") →
      ∀ loc : String,
        ((getSnapshot (applyIngests MemoryStore.empty reqs) kind limitRaw).1.latest).filter
            (fun e => e.location == loc) =
          (match ((reqs.filter (fun q => q.kind == kind && q.location == loc)).map
              mkItem).getLast? with
           | some m => [toSnapshotEntry kind m]
           | none => [])) := by
  refine ⟨rfl, fun k' => rfl, ?_⟩
  intro reqs hvalid loc
  have hinv := latestByLocation_inv reqs hvalid kind
  have hlatest : (getSnapshot (applyIngests MemoryStore.empty reqs) kind limitRaw).1.latest =
      (((mapGet (applyIngests MemoryStore.empty reqs).latestByLocation kind).getD []).map
        (fun p => p.2)).map (toSnapshotEntry kind) := rfl
  rw [hlatest, perLoc_filter_latest kind loc _ hinv.1 hinv.2.1, hinv.2.2 loc]

/-- Witness for `snapshot_readonly_and_latest`: after two traffic
measurements at the same junction, the snapshot's latest row for that
junction is the second measurement's row. -/
theorem snapshot_readonly_and_latest_witness :
    ((getSnapshot (applyIngests MemoryStore.empty snapshotWitnessReqs)
        "traffic" none).1.latest).filter (fun e => e.location == "j1") =
      (match ((snapshotWitnessReqs.filter
            (fun q => q.kind == "traffic" && q.location == "j1")).map mkItem).getLast? with
       | some m => [toSnapshotEntry "traffic" m]
       | none => []) :=
  (snapshot_readonly_and_latest MemoryStore.empty "traffic" none).2.2
    snapshotWitnessReqs (by decide) "j1"

end Snapshot

section Metric

theorem foldl_max_spec (qs : List ℚ) : ∀ a : ℚ,
    (qs.foldl max a = a ∨ qs.foldl max a ∈ qs)
    ∧ a ≤ qs.foldl max a
    ∧ ∀ x ∈ qs, x ≤ qs.foldl max a := by
  induction qs with
  | nil => intro a; exact ⟨Or.inl rfl, le_refl a, by simp⟩
  | cons b qs ih =>
    intro a
    have h := ih (max a b)
    refine ⟨?_, ?_, ?_⟩
    · rcases h.1 with he | hm
      · rcases max_choice a b with hab | hab
        · left; rw [List.foldl_cons, he, hab]
        · right; rw [List.foldl_cons, he, hab]; simp
      · right
        rw [List.foldl_cons]
        exact List.mem_cons_of_mem b hm
    · rw [List.foldl_cons]
      exact le_trans (le_max_left a b) h.2.1
    · intro x hx
      rw [List.foldl_cons]
      rcases List.mem_cons.mp hx with rfl | hx'
      · exact le_trans (le_max_right a x) h.2.1
      · exact h.2.2 x hx'

theorem listMax_nil : listMax ([] : List ℚ) = none := rfl

/-- `Math.max` over a nonempty candidate list picks a member that bounds
every candidate. -/
theorem listMax_spec (l : List ℚ) (m : ℚ) (h : listMax l = some m) :
    m ∈ l ∧ ∀ x ∈ l, x ≤ m := by
  cases l with
  | nil => cases h
  | cons q qs =>
    rw [listMax] at h
    injection h with h
    subst h
    have hs := foldl_max_spec qs q
    constructor
    · rcases hs.1 with he | hm
      · rw [he]; simp
      · exact List.mem_cons_of_mem q hm
    · intro x hx
      rcases List.mem_cons.mp hx with rfl | hx'
      · exact hs.2.1
      · exact hs.2.2 x hx'

/-- C7 counterexample: for `{queue_ns: 5, wait_ns: 50}`, `deriveMetric`
returns 5 (the queue tier wins and the wait field is never consulted),
whereas the maximum over all congestion-, queue- and wait-like numeric
fields — what the claim states — is 50. -/
theorem deriveMetric_not_max_over_all_fields :
    deriveMetric "traffic" (.robj [("queue_ns", .jnum 5), ("wait_ns", .jnum 50)]) = some 5
  ∧ claimTrafficMetricMax [("queue_ns", .jnum 5), ("wait_ns", .jnum 50)] = some 50
  ∧ some (5 : ℚ) ≠ some (50 : ℚ) := by
  refine ⟨by decide, by decide, by decide⟩

/-- C7 amended: `deriveMetric` is tiered, not a single maximum. Traffic: when
any congestion/queue-like numeric field is present the metric is their
maximum (a member bounding all of them) and wait fields are ignored;
otherwise, when `Number(progress ?? flow ?? utilisation ?? utilization)` is
a finite `p` — which includes `p = 0` from a trailing explicitly-null field,
since the JS chain yields its last operand even when null and
`Number(null) = 0` — the metric is `p * 100` when `p ≤ 1` else `p`;
otherwise the metric is the maximum of the wait-like fields; otherwise it is
absent. Rail: the metric is `Number(etaMs ?? eta_ms ?? eta)` when finite
(again 0 for a trailing null), absent otherwise. `POST /ingest` stores
exactly this derived metric. -/
theorem deriveMetric_tiered (fields : List (String × JsLeaf)) :
    (∀ m : ℚ, listMax (numCandidates fields trafficCandidateNames) = some m →
      deriveMetric "traffic" (.robj fields) = some m
      ∧ m ∈ numCandidates fields trafficCandidateNames
      ∧ ∀ c ∈ numCandidates fields trafficCandidateNames, c ≤ m)
  ∧ (numCandidates fields trafficCandidateNames = [] →
      ∀ p : ℚ, (nullishChain fields progressNames).bind leafNum = some p →
        deriveMetric "traffic" (.robj fields) = some (if p ≤ 1 then p * 100 else p))
  ∧ (numCandidates fields trafficCandidateNames = [] →
      (nullishChain fields progressNames).bind leafNum = none →
      ∀ m : ℚ, listMax (numCandidates fields trafficWaitNames) = some m →
        deriveMetric "traffic" (.robj fields) = some m
        ∧ m ∈ numCandidates fields trafficWaitNames
        ∧ ∀ c ∈ numCandidates fields trafficWaitNames, c ≤ m)
  ∧ (numCandidates fields trafficCandidateNames = [] →
      (nullishChain fields progressNames).bind leafNum = none →
      numCandidates fields trafficWaitNames = [] →
        deriveMetric "traffic" (.robj fields) = none)
  ∧ (deriveMetric "rail" (.robj fields) = (nullishChain fields railEtaNames).bind leafNum)
  ∧ (∀ (store : MemoryStore) (kind loc : String) (v : RawVal) (ts : Option ℚ) (now : ℚ),
      kind ≠ "" → loc ≠ "" →
        ∃ item : Measurement, (postIngest store kind loc (some v) ts now).stored = some item
          ∧ item.metric = deriveMetric kind v) := by
  refine ⟨?_, ?_, ?_, ?_, ?_, ?_⟩
  · intro m h
    have hspec := listMax_spec _ _ h
    refine ⟨?_, hspec.1, hspec.2⟩
    simp [deriveMetric, h]
  · intro hcand p hp
    simp [deriveMetric, hcand, hp, listMax_nil]
  · intro hcand hprog m h
    have hspec := listMax_spec _ _ h
    refine ⟨?_, hspec.1, hspec.2⟩
    simp [deriveMetric, hcand, hprog, h, listMax_nil]
  · intro hcand hprog hwait
    simp [deriveMetric, hcand, hprog, hwait, listMax_nil]
  · simp [deriveMetric]
  · intro store kind loc v ts now hk hl
    unfold postIngest
    rw [if_neg (by simp [hk, hl])]
    exact ⟨_, rfl, rfl⟩

/-- Witness for `deriveMetric_tiered`: a lone `queue_ns` field of 5 is the
derived metric. -/
theorem deriveMetric_tiered_witness :
    deriveMetric "traffic" (.robj [("queue_ns", .jnum 5)]) = some 5 :=
  ((deriveMetric_tiered [("queue_ns", .jnum 5)]).1 5 (by decide)).1

end Metric

section RailState

theorem railClosedIffAux (c : RailCommand) :
    ((if c.state = BarrierState.CLOSED then RememberedBarrier.CLOSED
        else RememberedBarrier.OPEN) = RememberedBarrier.CLOSED ↔ c.state = .CLOSED)
  ∧ (c.state = .CLOSING ∨ c.state = .OPENING →
      (if c.state = BarrierState.CLOSED then RememberedBarrier.CLOSED
        else RememberedBarrier.OPEN) = RememberedBarrier.OPEN
      ∧ barrierClosedObs (if c.state = BarrierState.CLOSED then RememberedBarrier.CLOSED
          else RememberedBarrier.OPEN) = 0) := by
  cases c with
  | mk s => cases s <;> simp [barrierClosedObs]

/-- C10: the rail pipeline's remembered barrier state has exactly the values
OPEN and CLOSED (the `RememberedBarrier` type mirrors the TS annotation of
`lastBarrierState`), starts at OPEN, and after every tick that processes a
measurement it is CLOSED iff the produced command's state is exactly CLOSED;
a CLOSING or OPENING command leaves it OPEN, so the next tick's observation
reports `barrier_closed = 0`. A tick without a measurement is skipped and
leaves the state unchanged. -/
theorem railBarrierState_invariant :
    railInitialBarrierState = RememberedBarrier.OPEN
  ∧ (∀ (st : RememberedBarrier) (item : RailItem) (cfg : RailConfig) (env : RailTickEnv),
      ∃ (c : RailCommand) (src : Source),
        (tickRail st (some item) cfg env).1 =
          .applied c src (item.location.getD "") (railEta item.value)
        ∧ ((tickRail st (some item) cfg env).2 = .CLOSED ↔ c.state = .CLOSED)
        ∧ (c.state = .CLOSING ∨ c.state = .OPENING →
            (tickRail st (some item) cfg env).2 = .OPEN
            ∧ barrierClosedObs (tickRail st (some item) cfg env).2 = 0))
  ∧ (∀ (st : RememberedBarrier) (cfg : RailConfig) (env : RailTickEnv),
      tickRail st none cfg env = (.skipped, st)) := by
  refine ⟨rfl, ?_, fun st cfg env => rfl⟩
  intro st item cfg env
  unfold tickRail
  dsimp only
  exact ⟨_, _, rfl, (railClosedIffAux _).1, fun hco => (railClosedIffAux _).2 hco⟩

/-- Witness for `railBarrierState_invariant`: a tick whose backend returns a
CLOSING command leaves the remembered state OPEN and the next observation at
0. -/
theorem railBarrierState_invariant_witness :
    (tickRail .OPEN (some { location := some "x1", value := .robj [("etaMs", .jnum 12000)] })
        { closeLeadMs := 20000 }
        { backendCommand := some { state := .CLOSING }, hasInferenceUrl := false
          directCommand := none }).2 = .OPEN := by
  have h := (railBarrierState_invariant.2.1 .OPEN
    { location := some "x1", value := .robj [("etaMs", .jnum 12000)] }
    { closeLeadMs := 20000 }
    { backendCommand := some { state := .CLOSING }, hasInferenceUrl := false
      directCommand := none })
  rcases h with ⟨c, src, happ, hiff, hco⟩
  have hc : c = { state := .CLOSING } := by
    have : (tickRail .OPEN
        (some { location := some "x1", value := .robj [("etaMs", .jnum 12000)] })
        { closeLeadMs := 20000 }
        { backendCommand := some { state := .CLOSING }, hasInferenceUrl := false
          directCommand := none }).1 =
        .applied { state := .CLOSING } Source.policy "x1" (some 12000) := by decide
    rw [this] at happ
    cases happ
    rfl
  exact (hco (by rw [hc]; exact Or.inl rfl)).1

end RailState

section LatestPerKey

theorem mapGet_eq_none_iff {β : Type} {m : List (String × β)} {k : String} :
    mapGet m k = none ↔ mapContains m k = false := by
  induction m with
  | nil => simp [mapGet, mapContains]
  | cons p m ih =>
    rw [mapGet, mapContains, List.any_cons]
    cases hp : (p.1 == k) with
    | true => simp
    | false =>
      simp only [Bool.false_or, if_neg Bool.false_ne_true]
      simpa [mapContains] using ih

theorem mapGet_some_mem {β : Type} {m : List (String × β)} {k : String} {v : β}
    (h : mapGet m k = some v) : (k, v) ∈ m := by
  induction m with
  | nil => cases h
  | cons p m ih =>
    rw [mapGet] at h
    by_cases hp : (p.1 == k) = true
    · rw [if_pos hp] at h
      injection h with hv
      have hpk : p.1 = k := by simpa using hp
      refine List.mem_cons.mpr (Or.inl ?_)
      rw [← hpk, ← hv]
    · rw [if_neg hp] at h
      exact List.mem_cons_of_mem p (ih h)

theorem mem_eq_of_mapGet {β : Type} {m : List (String × β)} {k : String} {v : β}
    (hnd : (m.map (fun p => p.1)).Nodup) (hget : mapGet m k = some v)
    {p : String × β} (hp : p ∈ m) (hpk : p.1 = k) : p = (k, v) := by
  induction m with
  | nil => cases hp
  | cons q m ih =>
    rw [mapGet] at hget
    rw [List.map_cons] at hnd
    have hnd' := List.nodup_cons.mp hnd
    rcases List.mem_cons.mp hp with rfl | hpm
    · rw [if_pos (by simp [hpk])] at hget
      injection hget with hv
      rcases p with ⟨p1, p2⟩
      simp only at hpk hv
      rw [hpk, hv]
    · cases hq : (q.1 == k) with
      | true =>
        have hqk : q.1 = k := by simpa using hq
        exact absurd (List.mem_map.mpr ⟨p, hpm, (hpk.trans hqk.symm)⟩) hnd'.1
      | false =>
        rw [if_neg (by simp [hq])] at hget
        exact ih hnd'.2 hget hpm

theorem self_mem_mapSet {β : Type} (m : List (String × β)) (k : String) (v : β) :
    (k, v) ∈ mapSet m k v := by
  unfold mapSet
  split_ifs with h
  · rcases List.any_eq_true.mp h with ⟨p, hp, hpk⟩
    exact List.mem_map.mpr ⟨p, hp, by rw [if_pos hpk]⟩
  · exact List.mem_append_right _ (by simp)

theorem mem_mapSet_of_ne {β : Type} {m : List (String × β)} {k : String} {v : β}
    {p : String × β} (hp : p ∈ m) (hne : (p.1 == k) = false) : p ∈ mapSet m k v := by
  unfold mapSet
  split_ifs with h
  · exact List.mem_map.mpr ⟨p, hp, by rw [if_neg (by simp [hne])]⟩
  · exact List.mem_append_left _ hp

/-- Stepping the latest-by-key map with one log entry preserves the loop
invariant: keys are distinct, every stored pair sits under its entry's key,
comes from the processed log prefix, passes the filter, and is
greatest-timestamp within its key group; and every processed entry passing
the filter has its key represented. -/
theorem latestStep_inv (filt : Option Agent) (m : List (String × DecisionLog))
    (ms0 : List DecisionLog) (e : DecisionLog)
    (h1 : (m.map (fun p => p.1)).Nodup)
    (h2 : ∀ p ∈ m, p.1 = latestKey p.2 ∧ p.2 ∈ ms0 ∧ okFilter filt p.2 = true
      ∧ ∀ d ∈ ms0, okFilter filt d = true → latestKey d = p.1 → d.ts ≤ p.2.ts)
    (h3 : ∀ d ∈ ms0, okFilter filt d = true → ∃ p ∈ m, p.1 = latestKey d) :
    ((latestStep filt m e).map (fun p => p.1)).Nodup
    ∧ (∀ p ∈ latestStep filt m e, p.1 = latestKey p.2 ∧ p.2 ∈ ms0 ++ [e]
        ∧ okFilter filt p.2 = true
        ∧ ∀ d ∈ ms0 ++ [e], okFilter filt d = true → latestKey d = p.1 → d.ts ≤ p.2.ts)
    ∧ (∀ d ∈ ms0 ++ [e], okFilter filt d = true →
        ∃ p ∈ latestStep filt m e, p.1 = latestKey d) := by
  unfold latestStep
  cases hok : okFilter filt e with
  | false =>
    rw [if_neg Bool.false_ne_true]
    refine ⟨h1, ?_, ?_⟩
    · intro p hp
      obtain ⟨hk, hmem, hokp, hmax⟩ := h2 p hp
      refine ⟨hk, List.mem_append_left _ hmem, hokp, ?_⟩
      intro d hd hdok hdk
      rcases List.mem_append.mp hd with hd0 | hde
      · exact hmax d hd0 hdok hdk
      · rw [List.mem_singleton] at hde
        subst hde
        simp [hok] at hdok
    · intro d hd hdok
      rcases List.mem_append.mp hd with hd0 | hde
      · exact h3 d hd0 hdok
      · rw [List.mem_singleton] at hde
        subst hde
        simp [hok] at hdok
  | true =>
    rw [if_pos rfl]
    dsimp only
    rcases hget : mapGet m (latestKey e) with _ | cur
    · have hcont : mapContains m (latestKey e) = false := mapGet_eq_none_iff.mp hget
      have hnotin : latestKey e ∉ m.map (fun p => p.1) := by
        intro hmem
        rcases List.mem_map.mp hmem with ⟨p, hp, hkey⟩
        have hfp := mapContains_eq_false_iff.mp hcont p hp
        rw [hkey] at hfp
        simp at hfp
      refine ⟨?_, ?_, ?_⟩
      · rw [keys_mapSet_absent m _ e hcont]
        refine List.Nodup.append h1 (List.nodup_singleton _) ?_
        intro x hx hxa
        rw [List.mem_singleton] at hxa
        subst hxa
        exact hnotin hx
      · intro p hp
        rcases mem_mapSet hp with rfl | ⟨hm, hne⟩
        · refine ⟨rfl, List.mem_append_right _ (by simp), hok, ?_⟩
          intro d hd hdok hdk
          rcases List.mem_append.mp hd with hd0 | hde
          · exfalso
            rcases h3 d hd0 hdok with ⟨p', hp', hpk'⟩
            apply hnotin
            have hdk' : latestKey d = latestKey e := hdk
            rw [← hdk', ← hpk']
            exact List.mem_map.mpr ⟨p', hp', rfl⟩
          · rw [List.mem_singleton] at hde
            subst hde
            exact le_refl _
        · obtain ⟨hk, hmem, hokp, hmax⟩ := h2 p hm
          refine ⟨hk, List.mem_append_left _ hmem, hokp, ?_⟩
          intro d hd hdok hdk
          rcases List.mem_append.mp hd with hd0 | hde
          · exact hmax d hd0 hdok hdk
          · rw [List.mem_singleton] at hde
            subst hde
            exfalso
            have hdk' : latestKey d = p.1 := hdk
            rw [hdk'] at hne
            simp at hne
      · intro d hd hdok
        rcases List.mem_append.mp hd with hd0 | hde
        · rcases h3 d hd0 hdok with ⟨p, hp, hpk⟩
          have hpe : (p.1 == latestKey e) = false := by
            cases hc : (p.1 == latestKey e) with
            | true =>
              exfalso
              apply hnotin
              have : p.1 = latestKey e := by simpa using hc
              rw [← this]
              exact List.mem_map.mpr ⟨p, hp, rfl⟩
            | false => rfl
          exact ⟨p, mem_mapSet_of_ne hp hpe, hpk⟩
        · rw [List.mem_singleton] at hde
          subst hde
          exact ⟨(latestKey d, d), self_mem_mapSet m _ d, rfl⟩
    · dsimp only
      have hcont : mapContains m (latestKey e) = true := by
        cases hc : mapContains m (latestKey e) with
        | true => rfl
        | false => rw [mapGet_eq_none_iff.mpr hc] at hget; cases hget
      have hcurmem : ((latestKey e), cur) ∈ m := mapGet_some_mem hget
      obtain ⟨hck, hcmem, hcok, hcmax⟩ := h2 _ hcurmem
      by_cases hts : cur.ts < e.ts
      · rw [if_pos hts]
        refine ⟨?_, ?_, ?_⟩
        · rw [keys_mapSet_present m _ e hcont]
          exact h1
        · intro p hp
          rcases mem_mapSet hp with rfl | ⟨hm, hne⟩
          · refine ⟨rfl, List.mem_append_right _ (by simp), hok, ?_⟩
            intro d hd hdok hdk
            rcases List.mem_append.mp hd with hd0 | hde
            · exact le_trans (hcmax d hd0 hdok hdk) (le_of_lt hts)
            · rw [List.mem_singleton] at hde
              subst hde
              exact le_refl _
          · obtain ⟨hk, hmem, hokp, hmax⟩ := h2 p hm
            refine ⟨hk, List.mem_append_left _ hmem, hokp, ?_⟩
            intro d hd hdok hdk
            rcases List.mem_append.mp hd with hd0 | hde
            · exact hmax d hd0 hdok hdk
            · rw [List.mem_singleton] at hde
              subst hde
              exfalso
              have hdk' : latestKey d = p.1 := hdk
              rw [hdk'] at hne
              simp at hne
        · intro d hd hdok
          rcases List.mem_append.mp hd with hd0 | hde
          · rcases h3 d hd0 hdok with ⟨p, hp, hpk⟩
            cases hpe : (p.1 == latestKey e) with
            | true =>
              have hpl : p.1 = latestKey e := by simpa using hpe
              exact ⟨(latestKey e, e), self_mem_mapSet m _ e, hpl.symm.trans hpk⟩
            | false => exact ⟨p, mem_mapSet_of_ne hp hpe, hpk⟩
          · rw [List.mem_singleton] at hde
            subst hde
            exact ⟨(latestKey d, d), self_mem_mapSet m _ d, rfl⟩
      · rw [if_neg hts]
        refine ⟨h1, ?_, ?_⟩
        · intro p hp
          obtain ⟨hk, hmem, hokp, hmax⟩ := h2 p hp
          refine ⟨hk, List.mem_append_left _ hmem, hokp, ?_⟩
          intro d hd hdok hdk
          rcases List.mem_append.mp hd with hd0 | hde
          · exact hmax d hd0 hdok hdk
          · rw [List.mem_singleton] at hde
            subst hde
            have hpe : p = (latestKey d, cur) := mem_eq_of_mapGet h1 hget hp hdk.symm
            rw [hpe]
            exact le_of_not_lt hts
        · intro d hd hdok
          rcases List.mem_append.mp hd with hd0 | hde
          · exact h3 d hd0 hdok
          · rw [List.mem_singleton] at hde
            subst hde
            exact ⟨(latestKey d, cur), hcurmem, rfl⟩

/-- The loop invariant carried over the whole decision log. -/
theorem latestFold_inv (filt : Option Agent) :
    ∀ (ds : List DecisionLog) (m : List (String × DecisionLog)) (ms0 : List DecisionLog),
      ((m.map (fun p => p.1)).Nodup) →
      (∀ p ∈ m, p.1 = latestKey p.2 ∧ p.2 ∈ ms0 ∧ okFilter filt p.2 = true
        ∧ ∀ d ∈ ms0, okFilter filt d = true → latestKey d = p.1 → d.ts ≤ p.2.ts) →
      (∀ d ∈ ms0, okFilter filt d = true → ∃ p ∈ m, p.1 = latestKey d) →
      (((ds.foldl (latestStep filt) m).map (fun p => p.1)).Nodup)
      ∧ (∀ p ∈ ds.foldl (latestStep filt) m,
          p.1 = latestKey p.2 ∧ p.2 ∈ ms0 ++ ds ∧ okFilter filt p.2 = true
          ∧ ∀ d ∈ ms0 ++ ds, okFilter filt d = true → latestKey d = p.1 → d.ts ≤ p.2.ts)
      ∧ (∀ d ∈ ms0 ++ ds, okFilter filt d = true →
          ∃ p ∈ ds.foldl (latestStep filt) m, p.1 = latestKey d) := by
  intro ds
  induction ds with
  | nil =>
    intro m ms0 h1 h2 h3
    rw [List.foldl_nil, List.append_nil]
    exact ⟨h1, h2, h3⟩
  | cons e ds ih =>
    intro m ms0 h1 h2 h3
    rw [List.foldl_cons]
    have hstep := latestStep_inv filt m ms0 e h1 h2 h3
    have hres := ih (latestStep filt m e) (ms0 ++ [e]) hstep.1 hstep.2.1 hstep.2.2
    rw [List.append_assoc, List.singleton_append] at hres
    exact hres

theorem parseLimit_nat (n : ℕ) (h : 1 ≤ n) :
    parseLimit (some (n : ℚ)) = some (min 100 n) := by
  unfold parseLimit
  dsimp only
  have hpos : (0 : ℚ) < (n : ℚ) := by exact_mod_cast (by omega : 0 < n)
  have hfloor : ⌊(n : ℚ)⌋ = (n : ℤ) := Int.floor_natCast n
  rw [if_pos hpos, hfloor]
  have hcast : ((min 100 n : ℕ) : ℤ) = min 100 ((n : ℕ) : ℤ) := by push_cast; rfl
  rw [← hcast]
  have hne : ¬ (((min 100 n : ℕ) : ℤ) = 0) := by
    have h1 : 1 ≤ min 100 n := le_min (by omega) h
    exact_mod_cast (by omega : ¬ (min 100 n = 0))
  rw [if_neg hne, Int.toNat_natCast]

/-- C4: latestPerKey returns one entry per case-insensitive
(agent, location-or-unknown) group: the output is sorted descending by
timestamp, its keys are pairwise distinct, every output entry is a log
entry passing the agent filter whose timestamp is greatest within its
group, every filtered log entry's group is represented, and the route
returns the whole aggregation when no limit is supplied and its first
min(limit, 100) entries when a positive limit n is supplied. -/
theorem latestPerKey_correct (ds : List DecisionLog) (filt : Option Agent) :
    ((latestItems ds filt).Sorted (fun a b => b.ts ≤ a.ts))
  ∧ (((latestItems ds filt).map latestKey).Nodup)
  ∧ (∀ e ∈ latestItems ds filt, e ∈ ds ∧ okFilter filt e = true
      ∧ ∀ d ∈ ds, okFilter filt d = true → latestKey d = latestKey e → d.ts ≤ e.ts)
  ∧ (∀ d ∈ ds, okFilter filt d = true →
      ∃ e ∈ latestItems ds filt, latestKey e = latestKey d)
  ∧ (latestRoute ds filt none = latestItems ds filt)
  ∧ (∀ n : ℕ, 1 ≤ n →
      latestRoute ds filt (some (n : ℚ)) = (latestItems ds filt).take (min 100 n)) := by
  have hfold := latestFold_inv filt ds [] [] (by simp) (by simp) (by simp)
  rw [List.nil_append] at hfold
  have hperm : (latestItems ds filt).Perm
      ((ds.foldl (latestStep filt) []).map (fun p => p.2)) :=
    List.mergeSort_perm _ _
  refine ⟨?_, ?_, ?_, ?_, rfl, ?_⟩
  · have hs := @List.sorted_mergeSort DecisionLog
      (fun a b : DecisionLog => decide (b.ts ≤ a.ts))
      (fun a b c hab hbc => by
        simp only [decide_eq_true_eq] at hab hbc ⊢
        exact le_trans hbc hab)
      (fun a b => by rcases le_total b.ts a.ts with hab | hab <;> simp [hab])
      ((ds.foldl (latestStep filt) []).map (fun p => p.2))
    exact hs.imp (fun hab => of_decide_eq_true hab)
  · have hkeys : ((ds.foldl (latestStep filt) []).map (fun p => p.2)).map latestKey =
        (ds.foldl (latestStep filt) []).map (fun p => p.1) := by
      rw [List.map_map]
      exact List.map_congr_left (fun p hp => ((hfold.2.1 p hp).1).symm)
    have hnd : (((ds.foldl (latestStep filt) []).map (fun p => p.2)).map latestKey).Nodup := by
      rw [hkeys]
      exact hfold.1
    exact ((hperm.map latestKey).nodup_iff).mpr hnd
  · intro e he
    have hmem := (hperm.mem_iff).mp he
    rcases List.mem_map.mp hmem with ⟨p, hp, rfl⟩
    obtain ⟨hk, hmemd, hokp, hmax⟩ := hfold.2.1 p hp
    exact ⟨hmemd, hokp, fun d hd hdok hdk => hmax d hd hdok (hdk.trans hk.symm)⟩
  · intro d hd hdok
    rcases hfold.2.2 d hd hdok with ⟨p, hp, hpk⟩
    refine ⟨p.2, (hperm.mem_iff).mpr (List.mem_map.mpr ⟨p, hp, rfl⟩), ?_⟩
    rw [← (hfold.2.1 p hp).1, hpk]
  · intro n hn
    unfold latestRoute
    rw [parseLimit_nat n hn]

/-- Witness for `latestPerKey_correct`: a one-entry log with limit 1. -/
theorem latestPerKey_correct_witness :
    latestRoute [sampleDecision] none (some (1 : ℚ)) =
      (latestItems [sampleDecision] none).take (min 100 1) :=
  (latestPerKey_correct [sampleDecision] none).2.2.2.2.2 1 (by norm_num)

end LatestPerKey

end SmartCity
